import Mathlib

/-!
Shallow embedding of the key-derivation and PSBT core of rust-miniscript
(src/descriptor/key.rs and src/psbt/mod.rs), together with theorems settling
the specification claims.  External collaborators (secp256k1 elliptic-curve
operations, BIP32 child derivation, script hashing, the taproot spend-info
structure and the satisfier/finalizer engine) are passed in as explicit
function parameters, mirroring how the source code treats them as opaque.
Key material, scripts and hashes are represented by `Nat` identifiers or
byte lists; strings are represented as `List Char` (the source only ever
deals with ASCII, rejecting unprintable bytes up front).
-/

namespace RMS

/-! ## BIP32 path model (bitcoin::util::bip32) -/

/-- A single BIP32 derivation step: `ChildNumber` from rust-bitcoin, either a
normal (unhardened) or a hardened index, each `< 2^31`. -/
inductive ChildNumber where
  | normal (index : Nat)
  | hardened (index : Nat)
deriving DecidableEq, Repr

/-- `ChildNumber::is_normal`. -/
def ChildNumber.is_normal : ChildNumber → Bool
  | .normal _ => true
  | .hardened _ => false

/-- A BIP32 fingerprint (4 bytes), abstracted to a `Nat`. -/
abbrev Fingerprint := Nat

/-- `bip32::DerivationPath`: a list of child numbers. -/
abbrev DerivationPath := List ChildNumber

/-- `bip32::KeySource`: a fingerprint together with a derivation path. -/
abbrev KeySource := Fingerprint × DerivationPath

/-! ## Key model (src/descriptor/key.rs) -/

/-- `Wildcard`: whether a descriptor key ends in a wildcard marker. -/
inductive Wildcard where
  | none
  | unhardened
  | hardened
deriving DecidableEq, Repr

/-- `bip32::ExtendedPubKey`, abstracted to its observable data: the key
material identity and its own fingerprint. -/
structure ExtendedPubKey where
  keyId : Nat
  fp : Fingerprint
deriving DecidableEq, Repr

/-- `bip32::ExtendedPrivKey`, abstracted the same way. -/
structure ExtendedPrivKey where
  keyId : Nat
  fp : Fingerprint
deriving DecidableEq, Repr

/-- `SinglePubKey`: a full (compressed/uncompressed) key or an x-only key. -/
inductive SinglePubKey where
  | FullKey (pk : Nat)
  | XOnly (pk : Nat)
deriving DecidableEq, Repr

/-- `SinglePub`: a single public key with optional origin. -/
structure SinglePub where
  origin : Option KeySource
  key : SinglePubKey
deriving DecidableEq, Repr

/-- `SinglePriv`: a single private key (WIF) with optional origin. -/
structure SinglePriv where
  origin : Option KeySource
  key : Nat
deriving DecidableEq, Repr

/-- `DescriptorXKey<K>`: an extended key with origin, derivation path and
wildcard status. -/
structure DescriptorXKey (K : Type) where
  origin : Option KeySource
  xkey : K
  derivation_path : DerivationPath
  wildcard : Wildcard
deriving DecidableEq, Repr

/-- `DescriptorPublicKey`: a single key or an xpub. -/
inductive DescriptorPublicKey where
  | Single (pk : SinglePub)
  | XPub (xpub : DescriptorXKey ExtendedPubKey)
deriving DecidableEq, Repr

/-- `DescriptorSecretKey`: a single WIF private key or an xprv. -/
inductive DescriptorSecretKey where
  | Single (sk : SinglePriv)
  | XPrv (xprv : DescriptorXKey ExtendedPrivKey)
deriving DecidableEq, Repr

/-- `DerivedDescriptorKey`: a descriptor public key paired with the concrete
derivation index used to obtain it; guaranteed wildcard-free. -/
structure DerivedDescriptorKey where
  key : DescriptorPublicKey
  index : Nat
deriving DecidableEq, Repr

/-- `DescriptorKeyParseError`: a static message (kept as a string). -/
structure DescriptorKeyParseError where
  msg : List Char
deriving DecidableEq, Repr

/-- `ConversionError` from src/descriptor/key.rs. -/
inductive ConversionError where
  | Wildcard
  | HardenedChild
  | HardenedWildcard
deriving DecidableEq, Repr

/-! ## `to_public` (DescriptorXKey<ExtendedPrivKey>::to_public)

The private-key child derivation `derive_priv` is elliptic-curve work from
rust-bitcoin; it derives one child at a time along the path, so we model it as
a fold of a single-step function supplied as a parameter.  `from_priv`
(private-to-public conversion) is likewise a parameter. -/

/-- `xprv.derive_priv(secp, path)`: fold the single-step child derivation over
the path (empty path returns the key itself, as in rust-bitcoin). -/
def derivePrivPath (step : ExtendedPrivKey → ChildNumber → Option ExtendedPrivKey)
    (k : ExtendedPrivKey) (path : DerivationPath) : Option ExtendedPrivKey :=
  path.foldl (fun acc c => acc.bind (fun k0 => step k0 c)) (some k)

/-- `DescriptorXKey::<bip32::ExtendedPrivKey>::to_public` (key.rs lines
167-211): split the stored path into the part up to the last hardened step and
the trailing unhardened suffix, derive the private key through the former,
convert to public, and build the new origin. -/
def DescriptorXKey.to_public
    (step : ExtendedPrivKey → ChildNumber → Option ExtendedPrivKey)
    (fromPriv : ExtendedPrivKey → ExtendedPubKey)
    (k : DescriptorXKey ExtendedPrivKey) :
    Except DescriptorKeyParseError (DescriptorXKey ExtendedPubKey) :=
  let unhardened := (k.derivation_path.reverse.takeWhile ChildNumber.is_normal).length
  let lastHardenedIdx := k.derivation_path.length - unhardened
  let hardenedPath := k.derivation_path.take lastHardenedIdx
  let unhardenedPath := k.derivation_path.drop lastHardenedIdx
  match derivePrivPath step k.xkey hardenedPath with
  | Option.none => .error ⟨"Unable to derive the hardened steps".data⟩
  | some xprv =>
    let xpub := fromPriv xprv
    let origin : Option KeySource :=
      match k.origin with
      | some (fingerprint, path) => some (fingerprint, path ++ hardenedPath)
      | Option.none =>
        if hardenedPath.isEmpty then Option.none
        else some (k.xkey.fp, hardenedPath)
    .ok ⟨origin, xpub, unhardenedPath, k.wildcard⟩

/-! ## `derive` (DescriptorPublicKey::derive, key.rs lines 466-490)

`bip32::ChildNumber::from_normal_idx(i).unwrap()` panics when `i ≥ 2^31`;
the panic is modelled by returning `none`. -/

/-- `DerivedDescriptorKey::new` (key.rs lines 788-793): refuse keys that
still carry a wildcard. -/
def DerivedDescriptorKey.new (key : DescriptorPublicKey) (index : Nat) :
    Option DerivedDescriptorKey :=
  match key with
  | .XPub xpk => if xpk.wildcard ≠ Wildcard.none then Option.none
                 else some ⟨.XPub xpk, index⟩
  | k => some ⟨k, index⟩

/-- `DescriptorPublicKey::derive`: resolve the wildcard (if any) at `index`.
`none` models the panic from the `unwrap` on an index `≥ 2^31` (and the
final `.expect`, which can never fire since the wildcard was cleared). -/
def DescriptorPublicKey.derive (k : DescriptorPublicKey) (index : Nat) :
    Option DerivedDescriptorKey :=
  match k with
  | .Single _ => DerivedDescriptorKey.new k index
  | .XPub xpub =>
    let derivationPath : Option DerivationPath :=
      match xpub.wildcard with
      | .none => some xpub.derivation_path
      | .unhardened =>
        if index < 2 ^ 31 then some (xpub.derivation_path ++ [.normal index])
        else Option.none
      | .hardened =>
        if index < 2 ^ 31 then some (xpub.derivation_path ++ [.hardened index])
        else Option.none
    match derivationPath with
    | Option.none => Option.none
    | some dp =>
      DerivedDescriptorKey.new
        (.XPub ⟨xpub.origin, xpub.xkey, dp, Wildcard.none⟩) index

/-! ## `matches` (DescriptorXKey::matches, key.rs lines 696-734) -/

/-- The key's effective fingerprint: origin's if present, else the extended
key's own (`xkey_fingerprint`). -/
def DescriptorXKey.compareFingerprint (fpOf : K → Fingerprint)
    (k : DescriptorXKey K) : Fingerprint :=
  match k.origin with
  | some (fingerprint, _) => fingerprint
  | Option.none => fpOf k.xkey

/-- The key's effective path: origin path concatenated with the key's own
derivation path if an origin is present, else the bare derivation path. -/
def DescriptorXKey.comparePath (k : DescriptorXKey K) : DerivationPath :=
  match k.origin with
  | some (_, path) => path ++ k.derivation_path
  | Option.none => k.derivation_path

/-- `DescriptorXKey::matches`: compare the candidate key source against the
key's effective fingerprint and path, ignoring the candidate path's final
element when the key has a wildcard. -/
def DescriptorXKey.matches (fpOf : K → Fingerprint) (k : DescriptorXKey K)
    (keysource : KeySource) : Option DerivationPath :=
  let fingerprint := keysource.1
  let path := keysource.2
  let pathExcludingWildcard :=
    if k.wildcard ≠ Wildcard.none ∧ ¬ path.isEmpty then path.dropLast else path
  if k.compareFingerprint fpOf = fingerprint ∧ k.comparePath = pathExcludingWildcard
  then some pathExcludingWildcard
  else Option.none

/-! ## Descriptor key string parsing (key.rs lines 301-355, 528-645)

Strings are modelled as `List Char` (the parser rejects any non-printable
byte up front, so only ASCII survives, where Rust's byte-wise operations
agree with the character-wise ones here).  `split` is Rust's
`str::split(char)`, which always yields at least one piece. -/

/-- Rust `str::split(sep)` on a character separator. -/
def splitOnChar (sep : Char) : List Char → List (List Char)
  | [] => [[]]
  | c :: rest =>
    let r := splitOnChar sep rest
    if c = sep then [] :: r
    else
      match r with
      | h :: t => (c :: h) :: t
      | [] => [[c]]

/-- Decimal parse of a `u32` (Rust `u32::from_str`): digits only, value below
`2^32`. -/
def parseU32 : List Char → Option Nat
  | [] => Option.none
  | s =>
    let rec go : List Char → Option Nat → Option Nat
      | [], acc => acc
      | c :: rest, acc =>
        if c.isDigit then
          go rest (acc.map (fun a => a * 10 + (c.toNat - 48)))
        else Option.none
    match go s (some 0) with
    | some v => if v < 2 ^ 32 then some v else Option.none
    | Option.none => Option.none

/-- The apostrophe character, built by code point to keep source text plain. -/
def apos : Char := Char.ofNat 39

/-- `bip32::ChildNumber::from_str`: a trailing apostrophe or `h` marks a
hardened index; the index must be below `2^31`. -/
def childFromStr (s : List Char) : Option ChildNumber :=
  match s.getLast? with
  | Option.none => Option.none
  | some c =>
    if c = apos ∨ c = 'h' then
      (parseU32 s.dropLast).bind fun n =>
        if n < 2 ^ 31 then some (ChildNumber.hardened n) else Option.none
    else
      (parseU32 s).bind fun n =>
        if n < 2 ^ 31 then some (ChildNumber.normal n) else Option.none

/-- Collect `childFromStr` over a list of path segments, failing on the first
bad segment (Rust `collect::<Result<DerivationPath, _>>`). -/
def collectChildren : List (List Char) → Option DerivationPath
  | [] => some []
  | s :: rest =>
    match childFromStr s with
    | Option.none => Option.none
    | some c => (collectChildren rest).map (fun cs => c :: cs)

/-- The value of one hex digit. -/
def hexDigit (c : Char) : Option Nat :=
  if c.isDigit then some (c.toNat - 48)
  else if 'a' ≤ c ∧ c ≤ 'f' then some (c.toNat - 87)
  else if 'A' ≤ c ∧ c ≤ 'F' then some (c.toNat - 55)
  else Option.none

/-- Parse hex characters into a fingerprint (bip32 `Fingerprint::from_hex`). -/
def parseHex (s : List Char) : Option Nat :=
  let rec go : List Char → Nat → Option Nat
    | [], acc => some acc
    | c :: rest, acc => (hexDigit c).bind fun dv => go rest (acc * 16 + dv)
  go s 0

/-- `DescriptorXKey::parse_xkey_origin` (key.rs lines 555-610): check
printability, strip an optional `[fingerprint/path]` origin prefix, and
return the remaining key part together with the parsed origin. -/
def parseXkeyOrigin (s : List Char) :
    Except DescriptorKeyParseError (List Char × Option KeySource) :=
  if ¬ s.all (fun c => 20 ≤ c.toNat ∧ c.toNat ≤ 127) then
    .error ⟨"Encountered an unprintable character".data⟩
  else if s.isEmpty then .error ⟨"Empty key".data⟩
  else if s.head? = some '[' then
    match splitOnChar ']' s.tail with
    | [] => .error ⟨"Unclosed bracket".data⟩
    | rawOriginStr :: parts =>
      match splitOnChar '/' rawOriginStr with
      | [] => .error ⟨"No master fingerprint found after bracket".data⟩
      | originIdHex :: originPathStrs =>
        if originIdHex.length ≠ 8 then
          .error ⟨"Master fingerprint should be 8 characters long".data⟩
        else
          match parseHex originIdHex with
          | Option.none =>
            .error ⟨"Malformed master fingerprint, expected 8 hex chars".data⟩
          | some parentFingerprint =>
            match collectChildren originPathStrs with
            | Option.none =>
              .error ⟨"Error while parsing master derivation path".data⟩
            | some originPath =>
              match parts with
              | [] => .error ⟨"No key after origin.".data⟩
              | key :: rest =>
                if rest.isEmpty then
                  .ok (key, some (parentFingerprint, originPath))
                else .error ⟨"Multiple closing separators in Descriptor Public Key".data⟩
  else .ok (s, Option.none)

/-- The derivation-path segment loop of `parse_xkey_deriv` (key.rs lines
623-642): a `*` or `*h`/`*+apostrophe` segment sets the wildcard; any segment
arriving while the wildcard is already set is a hard error. -/
def parseDerivSegments : List (List Char) → Wildcard →
    Except DescriptorKeyParseError (DerivationPath × Wildcard)
  | [], w => .ok ([], w)
  | p :: rest, w =>
    if w = Wildcard.none ∧ p = ['*'] then
      parseDerivSegments rest Wildcard.unhardened
    else if w = Wildcard.none ∧ (p = ['*', apos] ∨ p = ['*', 'h']) then
      parseDerivSegments rest Wildcard.hardened
    else if w ≠ Wildcard.none then
      .error ⟨"wildcard may only appear as last element in a derivation path.".data⟩
    else
      match childFromStr p with
      | Option.none => .error ⟨"Error while parsing key derivation path".data⟩
      | some c =>
        (parseDerivSegments rest w).map (fun (cs, w2) => (c :: cs, w2))

/-- `DescriptorXKey::parse_xkey_deriv` (key.rs lines 613-645): split on `/`,
parse the extended key from the first piece (external codec, passed as
`xkeyFromStr`), then run the segment loop on the rest. -/
def parseXkeyDeriv (xkeyFromStr : List Char → Option K) (keyDeriv : List Char) :
    Except DescriptorKeyParseError (K × DerivationPath × Wildcard) :=
  match splitOnChar '/' keyDeriv with
  | [] => .error ⟨"No key found after origin description".data⟩
  | xkeyStr :: segments =>
    match xkeyFromStr xkeyStr with
    | Option.none => .error ⟨"Error while parsing xkey.".data⟩
    | some xkey =>
      (parseDerivSegments segments Wildcard.none).map
        (fun (dp, w) => (xkey, dp, w))

/-- `FromStr for DescriptorSecretKey` (key.rs lines 531-551): a key part of at
most 52 characters is parsed as a WIF private key (external codec `wifFromStr`)
and the parsed origin is dropped; otherwise it is an xprv with a derivation
path.  `xprvFromStr` is the external extended-key codec. -/
def DescriptorSecretKey.fromStr (wifFromStr : List Char → Option Nat)
    (xprvFromStr : List Char → Option ExtendedPrivKey) (s : List Char) :
    Except DescriptorKeyParseError DescriptorSecretKey :=
  match parseXkeyOrigin s with
  | .error e => .error e
  | .ok (keyPart, origin) =>
    if keyPart.length ≤ 52 then
      match wifFromStr keyPart with
      | Option.none => .error ⟨"Error while parsing a WIF private key".data⟩
      | some sk => .ok (.Single ⟨Option.none, sk⟩)
    else
      match parseXkeyDeriv xprvFromStr keyPart with
      | .error e => .error e
      | .ok (xprv, derivationPath, wildcard) =>
        .ok (.XPrv ⟨origin, xprv, derivationPath, wildcard⟩)

/-- Does the string contain the substring `pub` (Rust `str::contains("pub")`)? -/
def containsPub : List Char → Bool
  | 'p' :: 'u' :: 'b' :: _ => true
  | _ :: rest => containsPub rest
  | [] => false

/-- `FromStr for DescriptorPublicKey` (key.rs lines 304-354).  The single-key
codecs (x-only and full public keys) are external, passed as parameters. -/
def DescriptorPublicKey.fromStr
    (xonlyFromStr : List Char → Option Nat)
    (fullKeyFromStr : List Char → Option Nat)
    (xpubFromStr : List Char → Option ExtendedPubKey) (s : List Char) :
    Except DescriptorKeyParseError DescriptorPublicKey :=
  if s.length < 64 then
    .error ⟨"Key too short (<66 char), does not match any format".data⟩
  else
    match parseXkeyOrigin s with
    | .error e => .error e
    | .ok (keyPart, origin) =>
      if containsPub keyPart then
        match parseXkeyDeriv xpubFromStr keyPart with
        | .error e => .error e
        | .ok (xpub, derivationPath, wildcard) =>
          .ok (.XPub ⟨origin, xpub, derivationPath, wildcard⟩)
      else if keyPart.length = 64 then
        match xonlyFromStr keyPart with
        | Option.none => .error ⟨"Error while parsing simple xonly key".data⟩
        | some x => .ok (.Single ⟨origin, .XOnly x⟩)
      else if keyPart.length = 66 ∨ keyPart.length = 130 then
        if ¬ (keyPart.take 2 = ['0', '2'] ∨ keyPart.take 2 = ['0', '3'] ∨
              keyPart.take 2 = ['0', '4']) then
          .error ⟨"Only publickeys with prefixes 02/03/04 are allowed".data⟩
        else
          match fullKeyFromStr keyPart with
          | Option.none => .error ⟨"Error while parsing simple public key".data⟩
          | some pk => .ok (.Single ⟨origin, .FullKey pk⟩)
      else .error ⟨"Public keys must be 64/66/130 characters in size".data⟩

/-! ## Transaction and PSBT data model (bitcoin / bitcoin::util::psbt)

Scripts are byte lists; keys, hashes, control blocks, merkle roots and
signature digests are `Nat` identifiers.  The maps backed by `BTreeMap` in
Rust are modelled as association lists whose `insert` replaces the value of
an existing key in place and appends new keys (lookup-compatible with the
ordered map). -/

/-- A bitcoin script as raw bytes. -/
abbrev Script := List Nat

/-- Association-list lookup (`BTreeMap::get`). -/
def alGet [DecidableEq α] (m : List (α × β)) (k : α) : Option β :=
  match m with
  | [] => Option.none
  | (k0, v0) :: rest => if k0 = k then some v0 else alGet rest k

/-- Association-list insert (`BTreeMap::insert`): replace in place if the key
is present, else append. -/
def alInsert [DecidableEq α] (m : List (α × β)) (k : α) (v : β) :
    List (α × β) :=
  match m with
  | [] => [(k, v)]
  | (k0, v0) :: rest =>
    if k0 = k then (k0, v) :: rest else (k0, v0) :: alInsert rest k v

/-- `BTreeMap::entry(k).and_modify(f).or_insert_with(d)`: modify the value in
place when the key is present, else append the default entry. -/
def alEntry [DecidableEq α] (m : List (α × β)) (k : α) (f : β → β) (d : β) :
    List (α × β) :=
  match m with
  | [] => [(k, d)]
  | (k0, v0) :: rest =>
    if k0 = k then (k0, f v0) :: rest else (k0, v0) :: alEntry rest k f d

/-- `bitcoin::OutPoint`. -/
structure OutPoint where
  txid : Nat
  vout : Nat
deriving DecidableEq, Repr

/-- `bitcoin::TxIn` (fields used by this core). -/
structure TxIn where
  previous_output : OutPoint
  script_sig : Script
  sequence : Nat
  witness : List (List Nat)
deriving DecidableEq, Repr

/-- `bitcoin::TxOut`. -/
structure TxOut where
  value : Nat
  script_pubkey : Script
deriving DecidableEq, Repr

/-- `bitcoin::Transaction` (fields used by this core). -/
structure Transaction where
  version : Nat
  lock_time : Nat
  input : List TxIn
  output : List TxOut
deriving DecidableEq, Repr

/-- `bitcoin::EcdsaSighashType`. -/
inductive EcdsaSighashType where
  | all
  | none
  | single
  | allPlusAnyoneCanPay
  | nonePlusAnyoneCanPay
  | singlePlusAnyoneCanPay
deriving DecidableEq, Repr

/-- The consensus `u32` of an ECDSA sighash flag. -/
def EcdsaSighashType.toU32 : EcdsaSighashType → Nat
  | .all => 0x01
  | .none => 0x02
  | .single => 0x03
  | .allPlusAnyoneCanPay => 0x81
  | .nonePlusAnyoneCanPay => 0x82
  | .singlePlusAnyoneCanPay => 0x83

/-- `EcdsaSighashType::from_standard`: only the six standard flag values are
accepted. -/
def ecdsaFromStandard (n : Nat) : Option EcdsaSighashType :=
  match n with
  | 0x01 => some .all
  | 0x02 => some .none
  | 0x03 => some .single
  | 0x81 => some .allPlusAnyoneCanPay
  | 0x82 => some .nonePlusAnyoneCanPay
  | 0x83 => some .singlePlusAnyoneCanPay
  | _ => Option.none

/-- `bitcoin::SchnorrSighashType` (taproot). -/
inductive SchnorrSighashType where
  | default
  | all
  | none
  | single
  | allPlusAnyoneCanPay
  | nonePlusAnyoneCanPay
  | singlePlusAnyoneCanPay
deriving DecidableEq, Repr

/-- `PsbtSighashType::schnorr_hash_ty`: the seven taproot-legal values. -/
def schnorrFromConsensus (n : Nat) : Option SchnorrSighashType :=
  match n with
  | 0x00 => some .default
  | 0x01 => some .all
  | 0x02 => some .none
  | 0x03 => some .single
  | 0x81 => some .allPlusAnyoneCanPay
  | 0x82 => some .nonePlusAnyoneCanPay
  | 0x83 => some .singlePlusAnyoneCanPay
  | _ => Option.none

/-- `bitcoin::EcdsaSig`: a raw signature with its embedded sighash flag. -/
structure EcdsaSig where
  sigId : Nat
  hash_ty : EcdsaSighashType
deriving DecidableEq, Repr

/-- `LeafVersion` (only `TapScript` is ever used by this core). -/
inductive LeafVer where
  | tapScript
deriving DecidableEq, Repr

/-- `psbt::Input` (the fields this core reads or writes).  `sighash_type`
holds the raw `PsbtSighashType` u32. -/
structure PsbtInput where
  partialSigs : List (Nat × EcdsaSig) := []
  sighash_type : Option Nat := Option.none
  redeem_script : Option Script := Option.none
  witness_script : Option Script := Option.none
  bip32_derivation : List (Nat × KeySource) := []
  final_script_sig : Option Script := Option.none
  final_script_witness : Option (List (List Nat)) := Option.none
  non_witness_utxo : Option Transaction := Option.none
  witness_utxo : Option TxOut := Option.none
  tap_internal_key : Option Nat := Option.none
  tap_merkle_root : Option Nat := Option.none
  tap_scripts : List (Nat × (Script × LeafVer)) := []
  tap_key_origins : List (Nat × (List Nat × KeySource)) := []
deriving DecidableEq, Repr

/-- `PartiallySignedTransaction`. -/
structure Psbt where
  unsigned_tx : Transaction
  inputs : List PsbtInput
deriving DecidableEq, Repr

/-- `psbt::InputError` (variants reachable in the embedded operations). -/
inductive InputError where
  | MissingWitness
  | NonStandardSighashType (ty : Nat)
  | InterpreterNonStandardSighash (sigId : Nat)
  | WrongSighashFlag (required got : EcdsaSighashType) (pubkey : Nat)
  | InterpreterFailure (code : Nat)
deriving DecidableEq, Repr

/-- `psbt::Error`. -/
inductive PsbtError where
  | InputError (e : InputError) (index : Nat)
  | WrongInputCount (in_tx in_map : Nat)
  | InputIdxOutofBounds (psbt_inp index : Nat)
deriving DecidableEq, Repr

/-! ## `sanity_check` (psbt/mod.rs lines 408-451) -/

/-- The partial-signature flag check of one input: each signature's embedded
flag, re-validated through `from_standard`, must equal the input's target
flag. -/
def sanitySigs (index : Nat) (target : EcdsaSighashType) :
    List (Nat × EcdsaSig) → Except PsbtError Unit
  | [] => .ok ()
  | (key, sig) :: rest =>
    match ecdsaFromStandard sig.hash_ty.toU32 with
    | Option.none =>
      .error (.InputError (.InterpreterNonStandardSighash sig.sigId) index)
    | some flag =>
      if target ≠ flag then
        .error (.InputError (.WrongSighashFlag target flag key) index)
      else sanitySigs index target rest

/-- The per-input body of `sanity_check`: compute the target ECDSA flag (the
declared one validated by `ecdsa_hash_ty`, defaulting to ALL) and check every
partial signature against it. -/
def sanityInput (index : Nat) (input : PsbtInput) : Except PsbtError Unit :=
  match input.sighash_type with
  | some ty =>
    match ecdsaFromStandard ty with
    | Option.none => .error (.InputError (.NonStandardSighashType ty) index)
    | some target => sanitySigs index target input.partialSigs
  | Option.none => sanitySigs index EcdsaSighashType.all input.partialSigs

/-- The input loop of `sanity_check`. -/
def sanityInputs (index : Nat) : List PsbtInput → Except PsbtError Unit
  | [] => .ok ()
  | input :: rest =>
    match sanityInput index input with
    | .error e => .error e
    | .ok _ => sanityInputs (index + 1) rest

/-- `sanity_check`: the unsigned transaction's input count must match the
PSBT input array, and every already-present partial signature must carry the
input's declared (or defaulted) sighash flag. -/
def sanity_check (psbt : Psbt) : Except PsbtError Unit :=
  if psbt.unsigned_tx.input.length ≠ psbt.inputs.length then
    .error (.WrongInputCount psbt.unsigned_tx.input.length psbt.inputs.length)
  else sanityInputs 0 psbt.inputs

/-! ## `extract` (psbt/mod.rs lines 714-735) -/

/-- Overwrite the witness of transaction input `n`. -/
def setWitness (tx : Transaction) (n : Nat) (w : List (List Nat)) :
    Transaction :=
  { tx with input := tx.input.modify (fun i => { i with witness := w }) n }

/-- Overwrite the script_sig of transaction input `n`. -/
def setScriptSig (tx : Transaction) (n : Nat) (s : Script) : Transaction :=
  { tx with input := tx.input.modify (fun i => { i with script_sig := s }) n }

/-- The two conditional copies of `extract`'s loop body (psbt/mod.rs lines
726-731): copy the final witness and final script-sig into transaction input
`n` when present. -/
def applyFinalsStep (ret : Transaction) (n : Nat) (input : PsbtInput) :
    Transaction :=
  let ret1 :=
    match input.final_script_witness with
    | some w => setWitness ret n w
    | Option.none => ret
  match input.final_script_sig with
  | some s => setScriptSig ret1 n s
  | Option.none => ret1

/-- The input loop of `extract`: each input must have a final script-sig or a
final witness (error naming the first input missing both); whichever final
fields are present are copied into the transaction. -/
def extractLoop (ret : Transaction) (n : Nat) :
    List PsbtInput → Except PsbtError Transaction
  | [] => .ok ret
  | input :: rest =>
    if input.final_script_sig = Option.none ∧
       input.final_script_witness = Option.none then
      .error (.InputError .MissingWitness n)
    else extractLoop (applyFinalsStep ret n input) (n + 1) rest

/-- The pure copy performed by `extract`'s loop when every input has a final
field present: fold `applyFinalsStep` over the inputs from index `n`. -/
def applyFinalsFrom (ret : Transaction) (n : Nat) :
    List PsbtInput → Transaction
  | [] => ret
  | input :: rest => applyFinalsFrom (applyFinalsStep ret n input) (n + 1) rest

/-- `PsbtExt::extract`: run `sanity_check`, copy the final fields of every
input into the unsigned transaction, then run the external interpreter check
(`interpreter_check` lives in the finalizer module and is passed in as a
parameter). -/
def extract (interpreterCheck : Psbt → Except PsbtError Unit) (psbt : Psbt) :
    Except PsbtError Transaction :=
  match sanity_check psbt with
  | .error e => .error e
  | .ok _ =>
    match extractLoop psbt.unsigned_tx 0 psbt.inputs with
    | .error e => .error e
    | .ok ret =>
      match interpreterCheck psbt with
      | .error e => .error e
      | .ok _ => .ok ret

/-! ## Single-input finalization wrappers (psbt/mod.rs lines 664-701)

`finalizer::finalize_input(psbt, index, secp, allow_mall)` is the external
satisfaction engine; it is passed in as a parameter that returns the updated
PSBT.  Both wrappers bound-check the index and then invoke it — and both pass
`allow_mall = false` (mod.rs lines 675 and 700). -/

/-- `PsbtExt::finalize_inp_mut`. -/
def finalize_inp_mut (finalizeInput : Psbt → Nat → Bool → Except PsbtError Psbt)
    (psbt : Psbt) (index : Nat) : Except PsbtError Psbt :=
  if psbt.inputs.length ≤ index then
    .error (.InputIdxOutofBounds psbt.inputs.length index)
  else finalizeInput psbt index false

/-- `PsbtExt::finalize_inp_mall_mut` (note: the source also passes
`allow_mall = false` here, mod.rs line 700). -/
def finalize_inp_mall_mut (finalizeInput : Psbt → Nat → Bool → Except PsbtError Psbt)
    (psbt : Psbt) (index : Nat) : Except PsbtError Psbt :=
  if psbt.inputs.length ≤ index then
    .error (.InputIdxOutofBounds psbt.inputs.length index)
  else finalizeInput psbt index false

/-! ## Script shape predicates (rust-bitcoin `Script`)

Byte-level definitions of the script classifiers used by `sighash_msg`,
modelling `Script::is_v1_p2tr`, `is_v0_p2wpkh`, `is_v0_p2wsh`, `is_p2sh`. -/

/-- `Script::is_v1_p2tr`: `OP_PUSHNUM_1 OP_PUSHBYTES_32 <32 bytes>`. -/
def Script.is_v1_p2tr (s : Script) : Bool :=
  s.length = 34 ∧ s.head? = some 0x51 ∧ s.get? 1 = some 0x20

/-- `Script::is_v0_p2wpkh`: `OP_0 OP_PUSHBYTES_20 <20 bytes>`. -/
def Script.is_v0_p2wpkh (s : Script) : Bool :=
  s.length = 22 ∧ s.head? = some 0x00 ∧ s.get? 1 = some 0x14

/-- `Script::is_v0_p2wsh`: `OP_0 OP_PUSHBYTES_32 <32 bytes>`. -/
def Script.is_v0_p2wsh (s : Script) : Bool :=
  s.length = 34 ∧ s.head? = some 0x00 ∧ s.get? 1 = some 0x20

/-- `Script::is_p2sh`: `OP_HASH160 OP_PUSHBYTES_20 <20 bytes> OP_EQUAL`. -/
def Script.is_p2sh (s : Script) : Bool :=
  s.length = 23 ∧ s.head? = some 0xa9 ∧ s.get? 1 = some 0x14 ∧
    s.getLast? = some 0x87

/-- `script_code_wpkh` (psbt/mod.rs lines 1066-1074): rebuild the legacy
p2pkh script from the 20-byte hash inside a v0 witness program. -/
def script_code_wpkh (s : Script) : Script :=
  [0x76, 0xa9, 0x14] ++ s.drop 2 ++ [0x88, 0xac]

/-! ## Spent-output resolution (psbt/finalizer.rs helpers)

The finalizer module is part of this repository but outside the provided
sources; its UTXO-resolution helpers are modelled from the spec. -/

/-- Modelled from the spec: `finalizer::get_utxo` — "Resolve the input's
spent scriptPubkey from its witness-style UTXO summary if present, else from
the referenced output inside its non-witness previous transaction; fail if
neither is resolvable" (spec section 4.4).  This resolves the whole spent
output. -/
def get_utxo (psbt : Psbt) (idx : Nat) : Option TxOut :=
  match psbt.inputs.get? idx with
  | Option.none => Option.none
  | some inp =>
    match inp.witness_utxo with
    | some utxo => some utxo
    | Option.none =>
      match inp.non_witness_utxo, psbt.unsigned_tx.input.get? idx with
      | some tx, some txin => tx.output.get? txin.previous_output.vout
      | _, _ => Option.none

/-- Modelled from the spec: `finalizer::get_scriptpubkey` — the scriptPubkey
of the resolved spent output (spec section 4.4). -/
def get_scriptpubkey (psbt : Psbt) (idx : Nat) : Option Script :=
  (get_utxo psbt idx).map TxOut.script_pubkey

/-- Modelled from the spec: `finalizer::prevouts` — "the complete set of
spent outputs for every input in the transaction...; fail if any input's UTXO
cannot be resolved" (spec section 4.4). -/
def prevouts (psbt : Psbt) : Option (List TxOut) :=
  (List.range psbt.inputs.length).mapM (get_utxo psbt)

/-! ## `sighash_msg` (psbt/mod.rs lines 809-898) -/

/-- `SighashError` from psbt/mod.rs. -/
inductive SighashError where
  | IndexOutOfBounds (index len : Nat)
  | MissingInputUtxo
  | MissingSpendUtxos
  | InvalidSighashType
  | SighashComputationError (code : Nat)
  | MissingWitnessScript
  | MissingRedeemScript
deriving DecidableEq, Repr

/-- `PsbtSighashMsg`: the produced digest tagged by regime. -/
inductive PsbtSighashMsg where
  | TapSighash (digest : Nat)
  | EcdsaSighash (digest : Nat)
deriving DecidableEq, Repr

/-- The digest engines of `bitcoin::util::sighash::SighashCache`, treated as
an external collaborator: each operation receives the data the source passes
it and produces a 32-byte digest (or a computation error). -/
structure SighashCacheOps where
  taprootScriptSpend : Nat → List TxOut → Nat → SchnorrSighashType →
    Except SighashError Nat
  taprootKeySpend : Nat → List TxOut → SchnorrSighashType →
    Except SighashError Nat
  segwitHash : Nat → Script → Nat → EcdsaSighashType →
    Except SighashError Nat
  legacyHash : Nat → Script → Nat → Except SighashError Nat

/-- The taproot arm of `sighash_msg` after the sighash flag has been
resolved: script-path hash when a leaf hash was supplied, else key-path
hash, both tagged `TapSighash`. -/
def sighashMsgTap (cache : SighashCacheOps) (pv : List TxOut) (idx : Nat)
    (tapleafHash : Option Nat) (hashTy : SchnorrSighashType) :
    Except SighashError PsbtSighashMsg :=
  match tapleafHash with
  | some leafHash =>
    (cache.taprootScriptSpend idx pv leafHash hashTy).map .TapSighash
  | Option.none =>
    (cache.taprootKeySpend idx pv hashTy).map .TapSighash

/-- The non-taproot arm of `sighash_msg` after the sighash flag has been
resolved: BIP143 digests for native or nested segwit-v0 outputs, legacy
digests otherwise, all tagged `EcdsaSighash`. -/
def sighashMsgNonTap (cache : SighashCacheOps) (psbt : Psbt) (idx : Nat)
    (inp : PsbtInput) (inpSpk : Script) (hashTy : EcdsaSighashType) :
    Except SighashError PsbtSighashMsg :=
  match get_utxo psbt idx with
  | Option.none => .error .MissingInputUtxo
  | some utxo =>
    let amt := utxo.value
    let isNestedWpkh := inpSpk.is_p2sh ∧
      (inp.redeem_script.map Script.is_v0_p2wpkh).getD false
    let isNestedWsh := inpSpk.is_p2sh ∧
      (inp.redeem_script.map Script.is_v0_p2wsh).getD false
    if inpSpk.is_v0_p2wpkh ∨ inpSpk.is_v0_p2wsh ∨ isNestedWpkh ∨ isNestedWsh
    then
      let msg : Except SighashError Nat :=
        if inpSpk.is_v0_p2wpkh then
          cache.segwitHash idx (script_code_wpkh inpSpk) amt hashTy
        else if isNestedWpkh then
          cache.segwitHash idx (script_code_wpkh (inp.redeem_script.getD []))
            amt hashTy
        else
          match inp.witness_script with
          | Option.none => .error .MissingWitnessScript
          | some scriptCode => cache.segwitHash idx scriptCode amt hashTy
      msg.map .EcdsaSighash
    else
      let scriptCode : Except SighashError Script :=
        if inpSpk.is_p2sh then
          match inp.redeem_script with
          | Option.none => .error .MissingRedeemScript
          | some rs => .ok rs
        else .ok inpSpk
      match scriptCode with
      | .error e => .error e
      | .ok sc => (cache.legacyHash idx sc hashTy.toU32).map .EcdsaSighash

/-- `PsbtExt::sighash_msg`: resolve the spent scriptPubkey, dispatch on
whether it is a v1 taproot program, default the sighash flag (taproot
default resp. ALL) when the input declares none, and produce the digest
tagged by regime. -/
def sighash_msg (cache : SighashCacheOps) (psbt : Psbt) (idx : Nat)
    (tapleafHash : Option Nat) : Except SighashError PsbtSighashMsg :=
  if psbt.inputs.length ≤ idx then
    .error (.IndexOutOfBounds idx psbt.inputs.length)
  else
    match psbt.inputs.get? idx with
    | Option.none => .error (.IndexOutOfBounds idx psbt.inputs.length)
    | some inp =>
      match prevouts psbt with
      | Option.none => .error .MissingSpendUtxos
      | some pv =>
        match get_scriptpubkey psbt idx with
        | Option.none => .error .MissingInputUtxo
        | some inpSpk =>
          if inpSpk.is_v1_p2tr then
            match inp.sighash_type with
            | some ty =>
              match schnorrFromConsensus ty with
              | Option.none => .error .InvalidSighashType
              | some hashTy => sighashMsgTap cache pv idx tapleafHash hashTy
            | Option.none =>
              sighashMsgTap cache pv idx tapleafHash SchnorrSighashType.default
          else
            match inp.sighash_type with
            | some ty =>
              match ecdsaFromStandard ty with
              | Option.none => .error .InvalidSighashType
              | some hashTy => sighashMsgNonTap cache psbt idx inp inpSpk hashTy
            | Option.none =>
              sighashMsgNonTap cache psbt idx inp inpSpk EcdsaSighashType.all

/-! ## Descriptor model and the PSBT descriptor binder (psbt/mod.rs 737-1063)

A `Descriptor<Pk>` (shapes from this repository's descriptor module) is
modelled by its shape together with the key occurrences inside it; a key
occurrence is either a plain key or a hashed key (a `pkh`-fragment), mirroring
`miniscript::iter::PkPkh`.  The script/taproot computations the binder calls
(`script_pubkey`, `inner_script`, `to_v0_p2wsh`, `Miniscript::encode`,
`TapLeafHash::from_script`, the taproot spend-information structure, BIP32
public child derivation and the hashing of keys) are external collaborators
and enter as the function fields of `Ext`. -/

/-- `miniscript::iter::PkPkh`: a plain key occurrence or a hashed one. -/
inductive PkPkh (K H : Type) where
  | plainPubkey (pk : K)
  | hashedPubkey (h : H)
deriving DecidableEq

/-- Descriptor shapes: `Bare`, `Pkh`, `Wpkh`, `Sh` (with its four inner
shapes), `Wsh` and `Tr` with its list of leaf scripts (leaves in
`iter_scripts` order, each leaf its `iter_pk_pkh` key-occurrence list). -/
inductive Descriptor (K H : Type) where
  | bare (keys : List (PkPkh K H))
  | pkh (key : K)
  | wpkh (key : K)
  | shWsh (keys : List (PkPkh K H))
  | shWpkh (key : K)
  | shSortedMulti (keys : List (PkPkh K H))
  | shMs (keys : List (PkPkh K H))
  | wsh (keys : List (PkPkh K H))
  | tr (internalKey : K) (leaves : List (List (PkPkh K H)))
deriving DecidableEq

/-- The error of `bip32::ExtendedPubKey::derive_pub` that the source inspects
(its other errors are cryptographically unreachable, key.rs line 521). -/
inductive Bip32Error where
  | cannotDeriveFromHardenedKey
deriving DecidableEq, Repr

/-- The external collaborators of the binder. -/
structure Ext where
  /-- `bip32::ExtendedPubKey::derive_pub` along a path. -/
  deriveXPub : ExtendedPubKey → DerivationPath → Except Bip32Error Nat
  /-- `XOnlyPublicKey::to_public_key`: even-y promotion of an x-only key. -/
  xonlyToFull : Nat → Nat
  /-- The hash-based fingerprint of a single key without origin
  (key.rs lines 406-413). -/
  singleKeyFp : SinglePubKey → Nat
  /-- `PublicKey::to_pubkeyhash` (hash160). -/
  pkHash : Nat → Nat
  /-- `PublicKey::to_x_only_pubkey`. -/
  toXOnly : Nat → Nat
  /-- `XOnlyPublicKey::to_pubkeyhash`. -/
  xonlyHash : Nat → Nat
  /-- `Descriptor::<bitcoin::PublicKey>::script_pubkey`. -/
  scriptPubkeyFn : Descriptor Nat Nat → Script
  /-- `Wsh::inner_script` applied to the key occurrences of a wsh body. -/
  innerWshScript : List (PkPkh Nat Nat) → Script
  /-- `Sh::inner_script`. -/
  innerShScript : Descriptor Nat Nat → Script
  /-- `Script::to_v0_p2wsh`. -/
  toV0P2wsh : Script → Script
  /-- `Miniscript::encode` of a derived leaf. -/
  encodeMs : List (PkPkh Nat Nat) → Script
  /-- `TapLeafHash::from_script(·, LeafVersion::TapScript)`. -/
  tapLeafHashFn : Script → Nat
  /-- `TaprootSpendInfo::internal_key` of the derived taproot descriptor. -/
  spendInternalKey : Nat → List (List (PkPkh Nat Nat)) → Nat
  /-- `TaprootSpendInfo::merkle_root` (none for a key-path-only tree). -/
  spendMerkleRoot : Nat → List (List (PkPkh Nat Nat)) → Option Nat
  /-- `TaprootSpendInfo::control_block` for a leaf script (always present by
  construction, psbt/mod.rs line 987). -/
  controlBlockFn : Nat → List (List (PkPkh Nat Nat)) → Script → Nat

/-- `DescriptorPublicKey::master_fingerprint` (key.rs lines 393-417): the
origin's fingerprint if present, else the key's own fingerprint (xpub) or a
hash-based identifier (single key, external hash `singleKeyFp`). -/
def master_fingerprint (singleKeyFp : SinglePubKey → Nat) :
    DescriptorPublicKey → Fingerprint
  | .XPub xpub =>
    match xpub.origin with
    | some (fingerprint, _) => fingerprint
    | Option.none => xpub.xkey.fp
  | .Single single =>
    match single.origin with
    | some (fingerprint, _) => fingerprint
    | Option.none => singleKeyFp single.key

/-- `DescriptorPublicKey::full_derivation_path` (key.rs lines 424-442):
origin path (or empty) concatenated with the key's own path for an xpub;
the origin path alone for a single key. -/
def full_derivation_path : DescriptorPublicKey → DerivationPath
  | .XPub xpub =>
    (match xpub.origin with
     | some (_, path) => path
     | Option.none => []) ++ xpub.derivation_path
  | .Single single =>
    match single.origin with
    | some (_, path) => path
    | Option.none => []

/-- `DescriptorPublicKey::derive_public_key` (key.rs lines 504-525): single
keys resolve directly (x-only promoted to even-y full keys); an xpub must be
wildcard-free and unhardened-derivable. -/
def derive_public_key (E : Ext) : DescriptorPublicKey →
    Except ConversionError Nat
  | .Single pk =>
    match pk.key with
    | .FullKey p => .ok p
    | .XOnly x => .ok (E.xonlyToFull x)
  | .XPub xpk =>
    match xpk.wildcard with
    | .unhardened => .error .Wildcard
    | .hardened => .error .HardenedWildcard
    | .none =>
      match E.deriveXPub xpk.xkey xpk.derivation_path with
      | .ok p => .ok p
      | .error .cannotDeriveFromHardenedKey => .error .HardenedChild

/-- Local abbreviation for the source key type of descriptors. -/
abbrev DPK := DescriptorPublicKey

/-- The non-taproot translation closure fold (psbt/mod.rs lines 1026-1033):
derive every key occurrence and record
`bip32_derivation[derived] = (master_fingerprint, full_derivation_path)`;
hashed occurrences run the same closure and then hash the derived key
(`translate_pk2` uses one function for keys and hashes). -/
def translateKeyList (E : Ext) : List (PkPkh DPK DPK) →
    List (Nat × KeySource) →
    Except ConversionError (List (PkPkh Nat Nat) × List (Nat × KeySource))
  | [], acc => .ok ([], acc)
  | .plainPubkey xpk :: rest, acc =>
    match derive_public_key E xpk with
    | .error e => .error e
    | .ok pk =>
      let acc := alInsert acc pk
        (master_fingerprint E.singleKeyFp xpk, full_derivation_path xpk)
      (translateKeyList E rest acc).map
        (fun (ds, m) => (.plainPubkey pk :: ds, m))
  | .hashedPubkey xpk :: rest, acc =>
    match derive_public_key E xpk with
    | .error e => .error e
    | .ok pk =>
      let acc := alInsert acc pk
        (master_fingerprint E.singleKeyFp xpk, full_derivation_path xpk)
      (translateKeyList E rest acc).map
        (fun (ds, m) => (.hashedPubkey (E.pkHash pk) :: ds, m))

/-- The same closure fold for a shape holding exactly one plain key. -/
def translateKey1 (E : Ext) (xpk : DPK) :
    Except ConversionError (Nat × List (Nat × KeySource)) :=
  match derive_public_key E xpk with
  | .error e => .error e
  | .ok pk =>
    .ok (pk, alInsert [] pk
      (master_fingerprint E.singleKeyFp xpk, full_derivation_path xpk))

/-- `descriptor.translate_pk2` over a non-taproot descriptor, together with
the `bip32_derivation` map accumulated by the closure. -/
def translateNonTr (E : Ext) : Descriptor DPK DPK →
    Except ConversionError (Descriptor Nat Nat × List (Nat × KeySource))
  | .bare ks => (translateKeyList E ks []).map (fun (ds, m) => (.bare ds, m))
  | .pkh k => (translateKey1 E k).map (fun (pk, m) => (.pkh pk, m))
  | .wpkh k => (translateKey1 E k).map (fun (pk, m) => (.wpkh pk, m))
  | .shWsh ks => (translateKeyList E ks []).map (fun (ds, m) => (.shWsh ds, m))
  | .shWpkh k => (translateKey1 E k).map (fun (pk, m) => (.shWpkh pk, m))
  | .shSortedMulti ks =>
    (translateKeyList E ks []).map (fun (ds, m) => (.shSortedMulti ds, m))
  | .shMs ks => (translateKeyList E ks []).map (fun (ds, m) => (.shMs ds, m))
  | .wsh ks => (translateKeyList E ks []).map (fun (ds, m) => (.wsh ds, m))
  -- unreachable from the binder: "Tr is dealt with separately"
  -- (psbt/mod.rs line 1056)
  | .tr _ _ => .ok (.tr 0 [], [])

/-- The taproot translation closures (psbt/mod.rs lines 948-956): plain keys
derive directly; hashed keys derive, convert to x-only, hash, and record the
hash-to-key association in `hash_lookup`. -/
def translateTrLeaf (E : Ext) : List (PkPkh DPK DPK) → List (Nat × Nat) →
    Except ConversionError (List (PkPkh Nat Nat) × List (Nat × Nat))
  | [], lookup => .ok ([], lookup)
  | .plainPubkey xpk :: rest, lookup =>
    match derive_public_key E xpk with
    | .error e => .error e
    | .ok pk =>
      (translateTrLeaf E rest lookup).map
        (fun (ds, lk) => (.plainPubkey pk :: ds, lk))
  | .hashedPubkey xpk :: rest, lookup =>
    match derive_public_key E xpk with
    | .error e => .error e
    | .ok pk =>
      let xonly := E.toXOnly pk
      let hsh := E.xonlyHash xonly
      (translateTrLeaf E rest (alInsert lookup hsh xonly)).map
        (fun (ds, lk) => (.hashedPubkey hsh :: ds, lk))

/-- Translate every taproot leaf, threading `hash_lookup`. -/
def translateTrLeaves (E : Ext) : List (List (PkPkh DPK DPK)) →
    List (Nat × Nat) →
    Except ConversionError (List (List (PkPkh Nat Nat)) × List (Nat × Nat))
  | [], lookup => .ok ([], lookup)
  | leaf :: rest, lookup =>
    match translateTrLeaf E leaf lookup with
    | .error e => .error e
    | .ok (dleaf, lk) =>
      (translateTrLeaves E rest lk).map (fun (ds, lk2) => (dleaf :: ds, lk2))

/-- The `tap_key_origins` update for one key occurrence inside a leaf
(psbt/mod.rs lines 1004-1017): append the current leaf hash unless it is
already the most recently appended one, or insert a fresh entry. -/
def tkoUpdate (E : Ext) (input : PsbtInput) (xonly : Nat) (xpk : DPK)
    (tlh : Nat) : PsbtInput :=
  let m := alEntry input.tap_key_origins xonly
    (fun p => (if p.1.getLast? = some tlh then p.1 else p.1 ++ [tlh], p.2))
    ([tlh], (master_fingerprint E.singleKeyFp xpk, full_derivation_path xpk))
  { input with tap_key_origins := m }

/-- The inner key loop of the taproot binder (psbt/mod.rs lines 990-1018):
resolve each derived occurrence to its x-only point (hashed ones through
`hash_lookup`) and update `tap_key_origins`.  The mismatched-variant arm
models the source's `unreachable!` (line 1001); it can never fire because the
derived leaf is the translation of the original one. -/
def trKeyLoop (E : Ext) (lookup : List (Nat × Nat)) (tlh : Nat)
    (input : PsbtInput) : List (PkPkh Nat Nat × PkPkh DPK DPK) → PsbtInput
  | [] => input
  | (pd, po) :: rest =>
    match pd, po with
    | .plainPubkey pk, .plainPubkey xpk =>
      trKeyLoop E lookup tlh (tkoUpdate E input (E.toXOnly pk) xpk tlh) rest
    | .hashedPubkey h, .hashedPubkey xpk =>
      trKeyLoop E lookup tlh
        (tkoUpdate E input ((alGet lookup h).getD 0) xpk tlh) rest
    | _, _ => trKeyLoop E lookup tlh input rest

/-- The leaf loop of the taproot binder (psbt/mod.rs lines 979-1019): for
each (derived, original) leaf pair, compute the leaf script, its leaf hash
and its control block, insert into `tap_scripts`, and run the key loop. -/
def trLeafLoop (E : Ext) (ikd : Nat) (allLeaves : List (List (PkPkh Nat Nat)))
    (lookup : List (Nat × Nat)) (input : PsbtInput) :
    List (List (PkPkh Nat Nat) × List (PkPkh DPK DPK)) → PsbtInput
  | [] => input
  | (dleaf, oleaf) :: rest =>
    let leafScript := E.encodeMs dleaf
    let tlh := E.tapLeafHashFn leafScript
    let cb := E.controlBlockFn ikd allLeaves leafScript
    let input1 := { input with
      tap_scripts := alInsert input.tap_scripts cb (leafScript, .tapScript) }
    let input2 := trKeyLoop E lookup tlh input1 (dleaf.zip oleaf)
    trLeafLoop E ikd allLeaves lookup input2 rest

/-- Is the expected-scriptPubkey check present and failing? -/
def checkMismatch (checkScript : Option Script) (spk : Script) : Bool :=
  match checkScript with
  | some cs => cs ≠ spk
  | Option.none => false

/-- The taproot arm of `update_input_with_descriptor_helper` (psbt/mod.rs
lines 946-1022): translate internal key and leaves, compare the derived
scriptPubkey against the optional expectation (returning early, before any
field is written, on mismatch), then populate the taproot fields. -/
def helperTr (E : Ext) (input : PsbtInput) (ik : DPK)
    (leaves : List (List (PkPkh DPK DPK))) (checkScript : Option Script) :
    Except ConversionError (Descriptor Nat Nat × Bool × PsbtInput) :=
  match derive_public_key E ik with
  | .error e => .error e
  | .ok ikd =>
    match translateTrLeaves E leaves [] with
    | .error e => .error e
    | .ok (dleaves, lookup) =>
      let derived : Descriptor Nat Nat := .tr ikd dleaves
      if checkMismatch checkScript (E.scriptPubkeyFn derived) then
        .ok (derived, false, input)
      else
        let spendIk := E.spendInternalKey ikd dleaves
        let input1 := { input with
          tap_internal_key := some spendIk,
          tap_merkle_root := E.spendMerkleRoot ikd dleaves,
          tap_key_origins := alInsert input.tap_key_origins spendIk
            ([],
             (master_fingerprint E.singleKeyFp ik, full_derivation_path ik)) }
        let input2 := trLeafLoop E ikd dleaves lookup input1
          (dleaves.zip leaves)
        .ok (derived, true, input2)

/-- The non-taproot arm of `update_input_with_descriptor_helper`
(psbt/mod.rs lines 1024-1060): translate the keys, compare the derived
scriptPubkey against the optional expectation (again returning before any
field is written on mismatch), assign `bip32_derivation` wholesale, and set
`witness_script`/`redeem_script` according to the shape. -/
def helperNonTr (E : Ext) (input : PsbtInput) (d : Descriptor DPK DPK)
    (checkScript : Option Script) :
    Except ConversionError (Descriptor Nat Nat × Bool × PsbtInput) :=
  match translateNonTr E d with
  | .error e => .error e
  | .ok (derived, bip32) =>
    if checkMismatch checkScript (E.scriptPubkeyFn derived) then
      .ok (derived, false, input)
    else
      let input1 := { input with bip32_derivation := bip32 }
      let input2 :=
        match derived with
        | .shWsh ks =>
          { input1 with
            witness_script := some (E.innerWshScript ks),
            redeem_script := some (E.toV0P2wsh (E.innerWshScript ks)) }
        | .shWpkh _ =>
          { input1 with redeem_script := some (E.innerShScript derived) }
        | .shSortedMulti _ =>
          { input1 with redeem_script := some (E.innerShScript derived) }
        | .shMs _ =>
          { input1 with redeem_script := some (E.innerShScript derived) }
        | .wsh ks =>
          { input1 with witness_script := some (E.innerWshScript ks) }
        | _ => input1
      .ok (derived, true, input2)

/-- `update_input_with_descriptor_helper` (psbt/mod.rs lines 935-1063):
dispatch on whether the descriptor is a taproot one (`if let Descriptor::Tr`)
and run the corresponding arm.  The updated input is returned explicitly
(the source mutates through `&mut`). -/
def update_input_with_descriptor_helper (E : Ext) (input : PsbtInput)
    (descriptor : Descriptor DPK DPK) (checkScript : Option Script) :
    Except ConversionError (Descriptor Nat Nat × Bool × PsbtInput) :=
  match descriptor with
  | .tr ik leaves => helperTr E input ik leaves checkScript
  | d => helperNonTr E input d checkScript

/-- `UtxoUpdateError` from psbt/mod.rs. -/
inductive UtxoUpdateError where
  | IndexOutOfBounds (index len : Nat)
  | MissingInputUtxo
  | DerivationError (e : ConversionError)
  | UtxoCheck
  | MismatchedScriptPubkey
deriving DecidableEq, Repr

/-- Modelled from the spec: `desc.desc_type().segwit_version().is_some()` —
the descriptor module (outside the provided sources) classifies `Wpkh`,
`Wsh`, `Tr` and the `Sh`-wrapped segwit shapes as segwit-capable; bare,
`Pkh` and plain `Sh` are pre-segwit (spec section 4.3). -/
def descSegwitCapable : Descriptor K H → Bool
  | .wpkh _ | .shWsh _ | .shWpkh _ | .wsh _ | .tr _ _ => true
  | _ => false

/-- The expected-scriptPubkey computation of the checked wrapper
(psbt/mod.rs lines 761-796): segwit descriptors require `witness_utxo`,
pre-segwit ones require `non_witness_utxo`; when both are present they must
agree exactly. -/
def computeExpectedSpk (desc : Descriptor DPK DPK) (input : PsbtInput)
    (txin : TxIn) : Except UtxoUpdateError Script :=
  match input.witness_utxo, input.non_witness_utxo with
  | some w, Option.none =>
    if descSegwitCapable desc then .ok w.script_pubkey else .error .UtxoCheck
  | Option.none, some nw =>
    if descSegwitCapable desc then .error .UtxoCheck
    else
      match nw.output.get? txin.previous_output.vout with
      | some o => .ok o.script_pubkey
      | Option.none => .error .UtxoCheck
  | some w, some nw =>
    match nw.output.get? txin.previous_output.vout with
    | Option.none => .error .UtxoCheck
    | some o => if w ≠ o then .error .UtxoCheck else .ok w.script_pubkey
  | Option.none, Option.none => .error .UtxoCheck

/-- `PsbtExt::update_input_with_descriptor` (psbt/mod.rs lines 737-807): the
checked wrapper.  It validates the non-witness txid, computes the expected
scriptPubkey from the UTXO fields, delegates to the helper, and promotes a
reported mismatch into the hard error `MismatchedScriptPubkey`.  (`txid()` of
the non-witness transaction is the external transaction hash `txidFn`.) -/
def update_input_with_descriptor (E : Ext) (txidFn : Transaction → Nat)
    (psbt : Psbt) (inputIndex : Nat) (desc : Descriptor DPK DPK) :
    Except UtxoUpdateError Psbt :=
  match psbt.inputs.get? inputIndex with
  | Option.none => .error (.IndexOutOfBounds inputIndex psbt.inputs.length)
  | some input =>
    match psbt.unsigned_tx.input.get? inputIndex with
    | Option.none => .error .MissingInputUtxo
    | some txin =>
      let txidOk :=
        match input.non_witness_utxo with
        | some nw => txin.previous_output.txid = txidFn nw
        | Option.none => true
      if txidOk = false then .error .UtxoCheck
      else
        match computeExpectedSpk desc input txin with
        | .error e => .error e
        | .ok expectedSpk =>
          match update_input_with_descriptor_helper E input desc
              (some expectedSpk) with
          | .error e => .error (.DerivationError e)
          | .ok (_, spkCheckPassed, input2) =>
            if spkCheckPassed = false then .error .MismatchedScriptPubkey
            else .ok { psbt with inputs := psbt.inputs.set inputIndex input2 }

/-! ## Concrete instances used in counterexamples and witnesses -/

/-- A private-key derivation step that never fails (used for concrete
evaluations). -/
def idStep : ExtendedPrivKey → ChildNumber → Option ExtendedPrivKey :=
  fun k _ => some k

/-- A private-to-public conversion for concrete evaluations. -/
def idFromPriv : ExtendedPrivKey → ExtendedPubKey :=
  fun k => ⟨k.keyId, k.fp⟩

/-- A concrete xprv with no origin and the all-unhardened path `/0`. -/
def xprv0 : DescriptorXKey ExtendedPrivKey :=
  ⟨Option.none, ⟨1, 7⟩, [ChildNumber.normal 0], Wildcard.none⟩

/-- A concrete single key. -/
def singleKey3 : DescriptorPublicKey := .Single ⟨Option.none, .FullKey 3⟩

/-- A concrete wildcard xpub. -/
def wildXpub : DescriptorXKey ExtendedPubKey :=
  ⟨some (11, [ChildNumber.hardened 44]), ⟨2, 8⟩, [ChildNumber.normal 1],
   Wildcard.unhardened⟩

/-- A concrete wildcard xpub mirroring the doc example in key.rs: origin
`(0xd34db33f, 44h/0h/0h)`, own path `/1`, unhardened wildcard (the path
values are small stand-ins). -/
def exampleXpub : DescriptorXKey ExtendedPubKey :=
  ⟨some (13, [ChildNumber.hardened 44, ChildNumber.hardened 0,
              ChildNumber.hardened 0]),
   ⟨3, 9⟩,
   [ChildNumber.normal 1], Wildcard.unhardened⟩

/-- The candidate path `44h/0h/0h/1/42`. -/
def examplePath : DerivationPath :=
  [ChildNumber.hardened 44, ChildNumber.hardened 0, ChildNumber.hardened 0,
   ChildNumber.normal 1, ChildNumber.normal 42]

/-- Is an `Except` value an error? -/
def exceptIsErr : Except ε α → Bool
  | .error _ => true
  | .ok _ => false

/-- Is a path segment one of the three wildcard markers? -/
def isWildcardSeg (p : List Char) : Bool :=
  p = ['*'] ∨ p = ['*', apos] ∨ p = ['*', 'h']

/-- A key-string codec that accepts everything (concrete evaluations). -/
def anyXpubParse : List Char → Option ExtendedPubKey := fun _ => some ⟨0, 0⟩

/-- A key-string codec that rejects everything (concrete evaluations). -/
def noKeyParse : List Char → Option Nat := fun _ => Option.none

/-- A concrete public-descriptor string with a derivation step after the
wildcard marker: a (fake) xpub body followed by `/*/2`. -/
def wildMidStr : List Char :=
  'x' :: 'p' :: 'u' :: 'b' :: List.replicate 64 'A' ++ ['/', '*', '/', '2']

/-- The first segment of `wildMidStr` (everything before the first slash). -/
def wildMidHead : List Char :=
  'x' :: 'p' :: 'u' :: 'b' :: List.replicate 64 'A'

/-- A WIF codec accepting everything with key id 99 (concrete evaluations). -/
def wif99 : List Char → Option Nat := fun _ => some 99

/-- An xprv codec that rejects everything (concrete evaluations). -/
def noXprvParse : List Char → Option ExtendedPrivKey := fun _ => Option.none

/-- A concrete secret-descriptor string: origin prefix `[00000001/1]`
followed by the short (WIF-style) key part `abc`. -/
def originWifStr : List Char := "[00000001/1]abc".data

/-- An interpreter check that always passes (concrete evaluations). -/
def icOk : Psbt → Except PsbtError Unit := fun _ => .ok ()

/-- A concrete transaction input. -/
def txin0 : TxIn := ⟨⟨0, 0⟩, [], 0, []⟩

/-- A one-input PSBT whose input has neither final script-sig nor final
witness. -/
def psbtMissing : Psbt := ⟨⟨1, 0, [txin0], []⟩, [{}]⟩

/-- A concrete v1 taproot scriptPubkey: `OP_PUSHNUM_1 OP_PUSHBYTES_32` and 32
zero bytes. -/
def p2trScript : Script := 0x51 :: 0x20 :: List.replicate 32 0

/-- The spent output carrying the taproot script. -/
def utxoTr : TxOut := ⟨5, p2trScript⟩

/-- A one-input PSBT spending the taproot output, with no declared sighash
type. -/
def psbtTr : Psbt := ⟨⟨1, 0, [txin0], []⟩, [{ witness_utxo := some utxoTr }]⟩

/-- A sighash cache whose engines all return digest 42. -/
def cache42 : SighashCacheOps :=
  ⟨fun _ _ _ _ => .ok 42, fun _ _ _ => .ok 42, fun _ _ _ _ => .ok 42,
   fun _ _ _ => .ok 42⟩

/-- A concrete external-collaborator bundle for the binder: derivations
always succeed and every script computation returns a fixed value (the
derived scriptPubkey is always `[1]`). -/
def extId : Ext where
  deriveXPub := fun _ _ => .ok 0
  xonlyToFull := id
  singleKeyFp := fun _ => 0
  pkHash := id
  toXOnly := id
  xonlyHash := id
  scriptPubkeyFn := fun _ => [1]
  innerWshScript := fun _ => [2]
  innerShScript := fun _ => [3]
  toV0P2wsh := fun s => 0 :: s
  encodeMs := fun _ => [4]
  tapLeafHashFn := fun _ => 5
  spendInternalKey := fun ik _ => ik
  spendMerkleRoot := fun _ _ => Option.none
  controlBlockFn := fun _ _ _ => 6

/-- A concrete bare descriptor over the single key 3. -/
def descBare3 : Descriptor DPK DPK := .bare [.plainPubkey singleKey3]

/-- Project a binder result onto its mismatch flag and updated input. -/
def helperBI (r : Except ConversionError (Descriptor Nat Nat × Bool × PsbtInput)) :
    Option (Bool × PsbtInput) :=
  match r with
  | .ok (_, b, i) => some (b, i)
  | .error _ => Option.none

/-- The input state after binding `descBare3` with matching scriptPubkey. -/
def inputB1 : PsbtInput := { bip32_derivation := [(3, (0, []))] }

/-- A previous transaction with one output paying scriptPubkey `[2]`. -/
def prevTx2 : Transaction := ⟨1, 0, [], [⟨7, [2]⟩]⟩

/-- A transaction input spending output 0 of the transaction with id 77. -/
def txinPrev : TxIn := ⟨⟨77, 0⟩, [], 0, []⟩

/-- A PSBT input holding only the non-witness UTXO `prevTx2`. -/
def inputNW : PsbtInput := { non_witness_utxo := some prevTx2 }

/-- A one-input PSBT spending `prevTx2`. -/
def psbtNW : Psbt := ⟨⟨1, 0, [txinPrev], []⟩, [inputNW]⟩

/-- A transaction-id hash that assigns id 77 to everything. -/
def txid77 : Transaction → Nat := fun _ => 77

/-- A PSBT input with a pre-existing `bip32_derivation` entry at key 9. -/
def inputPre : PsbtInput := { bip32_derivation := [(9, (0, []))] }

/-- A PSBT input with a pre-existing `tap_key_origins` entry for key 7. -/
def inputTko : PsbtInput := { tap_key_origins := [(7, ([42], (5, [])))] }

/-- A key-path-only taproot descriptor whose internal key is the single
key 7. -/
def descTr7 : Descriptor DPK DPK :=
  .tr (.Single ⟨Option.none, .FullKey 7⟩) []

/-- The state of `inputTko` after binding `descTr7`: the pre-existing
`tap_key_origins` entry for key 7 has been replaced. -/
def inputTko2 : PsbtInput :=
  { tap_internal_key := some 7, tap_key_origins := [(7, ([], (0, [])))] }

/-! # Theorems settling the claims -/

/-! ## C10: the two single-input finalization wrappers agree -/

/-- C10: for every PSBT, input index and finalizer, `finalize_inp_mall_mut`
returns the same result (and the same updated PSBT) as `finalize_inp_mut`:
both bound-check the index and call the finalizer with `allow_mall = false`,
so the "allow malleable satisfactions" single-input variant is extensionally
equal to the strict one. -/
theorem finalize_inp_mall_mut_eq_strict
    (finalizeInput : Psbt → Nat → Bool → Except PsbtError Psbt)
    (psbt : Psbt) (index : Nat) :
    finalize_inp_mall_mut finalizeInput psbt index =
      finalize_inp_mut finalizeInput psbt index := rfl

/-! ## C2: `to_public` on an all-unhardened path -/

/-- C2 counterexample: on the origin-free xprv with path `/0` (all steps
unhardened), `to_public` keeps `origin = None`; it does not produce the
claimed fresh origin `(own_fingerprint, [])`. -/
theorem to_public_counterexample :
    DescriptorXKey.to_public idStep idFromPriv xprv0 =
      .ok ⟨Option.none, ⟨1, 7⟩, [ChildNumber.normal 0], Wildcard.none⟩ ∧
    (Option.none : Option KeySource) ≠ some (xprv0.xkey.fp, []) := by
  exact ⟨rfl, by simp⟩

/-- C2 (amended): for an extended private key whose stored path contains only
unhardened steps and that has no prior origin, `to_public` leaves the path
unchanged and the origin stays `None` (the hardened prefix is empty, so no
fresh origin is created). -/
theorem to_public_unhardened_theorem
    (step : ExtendedPrivKey → ChildNumber → Option ExtendedPrivKey)
    (fromPriv : ExtendedPrivKey → ExtendedPubKey)
    (k : DescriptorXKey ExtendedPrivKey)
    (hnorm : ∀ c ∈ k.derivation_path, c.is_normal = true)
    (horig : k.origin = Option.none) :
    DescriptorXKey.to_public step fromPriv k =
      .ok ⟨Option.none, fromPriv k.xkey, k.derivation_path, k.wildcard⟩ := by
  have h1 : k.derivation_path.reverse.takeWhile ChildNumber.is_normal =
      k.derivation_path.reverse := by
    rw [List.takeWhile_eq_self_iff]
    intro a ha
    exact hnorm a (List.mem_reverse.mp ha)
  unfold DescriptorXKey.to_public
  rw [h1]
  simp [derivePrivPath, horig]

/-- C2 witness: the amended theorem evaluated on the concrete xprv. -/
theorem to_public_unhardened_witness :
    DescriptorXKey.to_public idStep idFromPriv xprv0 =
      .ok ⟨Option.none, idFromPriv xprv0.xkey, xprv0.derivation_path,
           xprv0.wildcard⟩ :=
  to_public_unhardened_theorem idStep idFromPriv xprv0 (by decide) rfl

/-! ## C4: `derive` (wildcard resolution) -/

/-- C4 counterexample: calling `derive` with the out-of-range index `2^31` on
a single key returns a normal result (the key unchanged, tagged with the
index) — it does not panic, contradicting the claim that an index `≥ 2^31`
is a panic rather than a recoverable result for every key. -/
theorem derive_counterexample :
    DescriptorPublicKey.derive singleKey3 (2 ^ 31) =
      some ⟨singleKey3, 2 ^ 31⟩ ∧
    some (⟨singleKey3, 2 ^ 31⟩ : DerivedDescriptorKey) ≠ Option.none := by
  exact ⟨rfl, by simp⟩

/-- C4 (amended): a single key or a wildcard-free xpub is returned unchanged
(wrapped with the index tag) for every index, including indices `≥ 2^31`;
a wildcard key at an index `< 2^31` gets exactly one concrete child step of
the wildcard's kind appended and the wildcard cleared; a wildcard key at an
index `≥ 2^31` panics (`none`). -/
theorem derive_theorem (k : DescriptorPublicKey) (index : Nat) :
    (∀ pk, k = .Single pk → k.derive index = some ⟨k, index⟩) ∧
    (∀ xpub, k = .XPub xpub → xpub.wildcard = Wildcard.none →
      k.derive index = some ⟨k, index⟩) ∧
    (∀ xpub, k = .XPub xpub → xpub.wildcard = Wildcard.unhardened →
      index < 2 ^ 31 →
      k.derive index = some ⟨.XPub ⟨xpub.origin, xpub.xkey,
        xpub.derivation_path ++ [ChildNumber.normal index],
        Wildcard.none⟩, index⟩) ∧
    (∀ xpub, k = .XPub xpub → xpub.wildcard = Wildcard.hardened →
      index < 2 ^ 31 →
      k.derive index = some ⟨.XPub ⟨xpub.origin, xpub.xkey,
        xpub.derivation_path ++ [ChildNumber.hardened index],
        Wildcard.none⟩, index⟩) ∧
    (∀ xpub, k = .XPub xpub → xpub.wildcard ≠ Wildcard.none →
      2 ^ 31 ≤ index → k.derive index = Option.none) := by
  refine ⟨?_, ?_, ?_, ?_, ?_⟩
  · rintro pk rfl
    rfl
  · rintro xpub rfl hw
    obtain ⟨o, x, dp, w⟩ := xpub
    cases hw
    simp [DescriptorPublicKey.derive, DerivedDescriptorKey.new]
  · rintro xpub rfl hw hidx
    have hidx2 : index < 2147483648 := by omega
    simp [DescriptorPublicKey.derive, hw, hidx2, DerivedDescriptorKey.new]
  · rintro xpub rfl hw hidx
    have hidx2 : index < 2147483648 := by omega
    simp [DescriptorPublicKey.derive, hw, hidx2, DerivedDescriptorKey.new]
  · rintro xpub rfl hw hidx
    have hidx2 : ¬ index < 2147483648 := by omega
    cases hcase : xpub.wildcard with
    | none => exact absurd hcase hw
    | unhardened => simp [DescriptorPublicKey.derive, hcase, hidx2]
    | hardened => simp [DescriptorPublicKey.derive, hcase, hidx2]

/-- C4 witness: the amended theorem evaluated on the concrete wildcard xpub at
index 5. -/
theorem derive_witness :
    DescriptorPublicKey.derive (.XPub wildXpub) 5 =
      some ⟨.XPub ⟨wildXpub.origin, wildXpub.xkey,
        wildXpub.derivation_path ++ [ChildNumber.normal 5],
        Wildcard.none⟩, 5⟩ :=
  (derive_theorem (.XPub wildXpub) 5).2.2.1 wildXpub rfl rfl (by decide)

/-! ## C6: `matches` ignores the wildcard slot -/

/-- On a wildcard key with a non-empty candidate path, `matches` reduces to a
comparison against the candidate path without its final element. -/
theorem matches_wildcard_eq (fpOf : K → Fingerprint) (k : DescriptorXKey K)
    (fp : Fingerprint) (p : DerivationPath)
    (hw : k.wildcard ≠ Wildcard.none) (hne : ¬ p.isEmpty) :
    k.matches fpOf (fp, p) =
      if k.compareFingerprint fpOf = fp ∧ k.comparePath = p.dropLast then
        some p.dropLast
      else Option.none := by
  simp only [DescriptorXKey.matches, ne_eq, hw, not_false_eq_true, hne,
    and_self, if_true, true_and, Bool.false_eq_true]

/-- C6: for a key with a wildcard and a non-empty candidate path, the result
of `matches` is a function of the candidate path without its final element
(varying that element never changes the result); the match succeeds with the
prefix path exactly when the effective fingerprint and the remaining elements
agree; and a differing fingerprint never matches, whatever the paths. -/
theorem matches_theorem (fpOf : K → Fingerprint) (k : DescriptorXKey K)
    (fp : Fingerprint) (p : DerivationPath)
    (hw : k.wildcard ≠ Wildcard.none) (hne : p ≠ []) :
    (∀ x : ChildNumber,
      k.matches fpOf (fp, p.dropLast ++ [x]) = k.matches fpOf (fp, p)) ∧
    (k.compareFingerprint fpOf = fp → k.comparePath = p.dropLast →
      k.matches fpOf (fp, p) = some p.dropLast) ∧
    (∀ (fp2 : Fingerprint) (p2 : DerivationPath),
      k.compareFingerprint fpOf ≠ fp2 →
      k.matches fpOf (fp2, p2) = Option.none) := by
  have h3 : ¬ p.isEmpty := by
    simpa using hne
  refine ⟨?_, ?_, ?_⟩
  · intro x
    have h2 : ¬ (p.dropLast ++ [x]).isEmpty := by
      simp
    rw [matches_wildcard_eq fpOf k fp _ hw h2,
      matches_wildcard_eq fpOf k fp p hw h3, List.dropLast_concat]
  · intro hfp hpath
    rw [matches_wildcard_eq fpOf k fp p hw h3, if_pos ⟨hfp, hpath⟩]
  · intro fp2 p2 hfp
    unfold DescriptorXKey.matches
    rw [if_neg]
    intro hcon
    exact hfp hcon.1

/-- C6 witness: the success clause of the theorem evaluated on the concrete
key and candidate, yielding the matched prefix `44h/0h/0h/1`. -/
theorem matches_witness :
    exampleXpub.matches ExtendedPubKey.fp (13, examplePath) =
      some examplePath.dropLast :=
  (matches_theorem ExtendedPubKey.fp exampleXpub 13 examplePath
    (by decide) (by decide)).2.1 (by decide) (by decide)

/-! ## C7: a wildcard marker is legal only as the final path step -/

/-- Once the wildcard is set, any further segment is a hard parse error. -/
theorem parseDerivSegments_wildcard_err (w : Wildcard)
    (hw : w ≠ Wildcard.none) (p : List Char) (rest : List (List Char)) :
    exceptIsErr (parseDerivSegments (p :: rest) w) = true := by
  have h1 : ¬ (w = Wildcard.none ∧ p = ['*']) := fun h => hw h.1
  have h2 : ¬ (w = Wildcard.none ∧ (p = ['*', apos] ∨ p = ['*', 'h'])) :=
    fun h => hw h.1
  simp only [parseDerivSegments, if_neg h1, if_neg h2, if_pos hw]
  rfl

/-- Mapping the payload of an `Except` does not change its error status. -/
theorem exceptIsErr_map (f : α → β) (x : Except ε α) :
    exceptIsErr (x.map f) = exceptIsErr x := by
  cases x <;> rfl

/-- One step of the segment loop in the no-wildcard-yet state. -/
theorem parseDerivSegments_cons (p : List Char) (rest : List (List Char)) :
    parseDerivSegments (p :: rest) Wildcard.none =
      if p = ['*'] then parseDerivSegments rest Wildcard.unhardened
      else if p = ['*', apos] ∨ p = ['*', 'h'] then
        parseDerivSegments rest Wildcard.hardened
      else
        match childFromStr p with
        | Option.none =>
          .error ⟨"Error while parsing key derivation path".data⟩
        | some c =>
          (parseDerivSegments rest Wildcard.none).map
            (fun r => (c :: r.1, r.2)) := by
  simp only [parseDerivSegments, eq_self_iff_true, true_and, ne_eq,
    not_true_eq_false, if_false]

/-- A wildcard marker followed by at least one more segment makes the
derivation-path segment loop fail, from any starting wildcard state. -/
theorem parseDerivSegments_marker_mid (pre : List (List Char)) :
    ∀ (w : Wildcard) (m : List Char) (post : List (List Char)),
    isWildcardSeg m = true → post ≠ [] →
    exceptIsErr (parseDerivSegments (pre ++ m :: post) w) = true := by
  induction pre with
  | nil =>
    intro w m post hm hpost
    obtain ⟨q, rest, rfl⟩ : ∃ q rest, post = q :: rest := by
      cases post with
      | nil => exact absurd rfl hpost
      | cons q rest => exact ⟨q, rest, rfl⟩
    by_cases hw : w = Wildcard.none
    · subst hw
      have hm3 : m = ['*'] ∨ m = ['*', apos] ∨ m = ['*', 'h'] := by
        simpa [isWildcardSeg] using hm
      rcases hm3 with h | h | h <;> subst h
      · exact parseDerivSegments_wildcard_err Wildcard.unhardened
          (by decide) q rest
      · exact parseDerivSegments_wildcard_err Wildcard.hardened
          (by decide) q rest
      · exact parseDerivSegments_wildcard_err Wildcard.hardened
          (by decide) q rest
    · exact parseDerivSegments_wildcard_err w hw _ _
  | cons p pre ih =>
    intro w m post hm hpost
    by_cases hw : w = Wildcard.none
    · subst hw
      rw [List.cons_append, parseDerivSegments_cons]
      by_cases h1 : p = ['*']
      · rw [if_pos h1]
        exact ih Wildcard.unhardened m post hm hpost
      · rw [if_neg h1]
        by_cases h2 : p = ['*', apos] ∨ p = ['*', 'h']
        · rw [if_pos h2]
          exact ih Wildcard.hardened m post hm hpost
        · rw [if_neg h2]
          cases hc : childFromStr p with
          | none => rfl
          | some c =>
            rw [exceptIsErr_map]
            exact ih Wildcard.none m post hm hpost
    · exact parseDerivSegments_wildcard_err w hw _ _

/-- A key-and-derivation string whose path segments hold a wildcard marker
before a further step fails to parse, whatever the extended-key codec does. -/
theorem parseXkeyDeriv_marker_mid (kp : List Char → Option K)
    (kd x : List Char) (pre post : List (List Char)) (m : List Char)
    (hsplit : splitOnChar '/' kd = x :: (pre ++ m :: post))
    (hm : isWildcardSeg m = true) (hpost : post ≠ []) :
    exceptIsErr (parseXkeyDeriv kp kd) = true := by
  unfold parseXkeyDeriv
  rw [hsplit]
  dsimp only
  cases hx : kp x with
  | none => rfl
  | some xk =>
    dsimp only
    rw [exceptIsErr_map]
    exact parseDerivSegments_marker_mid pre Wildcard.none m post hm hpost

/-- C7: any derivation-path step after a wildcard marker makes parsing fail:
in the segment loop itself, and through both `FromStr` entry points
(public keys via the `pub`-containing xpub branch, secret keys via the
xprv branch taken when the key part is longer than 52 characters). -/
theorem wildcard_mid_parse_theorem :
    (∀ (pre post : List (List Char)) (m : List Char) (w : Wildcard),
      isWildcardSeg m = true → post ≠ [] →
      exceptIsErr (parseDerivSegments (pre ++ m :: post) w) = true) ∧
    (∀ (xonlyP fullP : List Char → Option Nat)
       (xpubP : List Char → Option ExtendedPubKey)
       (s keyPart x : List Char) (origin : Option KeySource)
       (pre post : List (List Char)) (m : List Char),
      parseXkeyOrigin s = .ok (keyPart, origin) →
      containsPub keyPart = true →
      splitOnChar '/' keyPart = x :: (pre ++ m :: post) →
      isWildcardSeg m = true → post ≠ [] →
      exceptIsErr (DescriptorPublicKey.fromStr xonlyP fullP xpubP s) = true) ∧
    (∀ (wifP : List Char → Option Nat)
       (xprvP : List Char → Option ExtendedPrivKey)
       (s keyPart x : List Char) (origin : Option KeySource)
       (pre post : List (List Char)) (m : List Char),
      parseXkeyOrigin s = .ok (keyPart, origin) →
      52 < keyPart.length →
      splitOnChar '/' keyPart = x :: (pre ++ m :: post) →
      isWildcardSeg m = true → post ≠ [] →
      exceptIsErr (DescriptorSecretKey.fromStr wifP xprvP s) = true) := by
  refine ⟨?_, ?_, ?_⟩
  · intro pre post m w hm hpost
    exact parseDerivSegments_marker_mid pre w m post hm hpost
  · intro xonlyP fullP xpubP s keyPart x origin pre post m horig hpub hsplit
      hm hpost
    have hkd := parseXkeyDeriv_marker_mid xpubP keyPart x pre post m hsplit
      hm hpost
    unfold DescriptorPublicKey.fromStr
    by_cases hlen : s.length < 64
    · rw [if_pos hlen]
      rfl
    · rw [if_neg hlen, horig]
      dsimp only
      rw [hpub]
      cases hx : parseXkeyDeriv xpubP keyPart with
      | error e => rfl
      | ok v =>
        rw [hx] at hkd
        exact absurd hkd (by simp [exceptIsErr])
  · intro wifP xprvP s keyPart x origin pre post m horig hlen hsplit hm hpost
    have hkd := parseXkeyDeriv_marker_mid xprvP keyPart x pre post m hsplit
      hm hpost
    unfold DescriptorSecretKey.fromStr
    rw [horig]
    dsimp only
    have hlen2 : ¬ keyPart.length ≤ 52 := by omega
    rw [if_neg hlen2]
    cases hx : parseXkeyDeriv xprvP keyPart with
    | error e => rfl
    | ok v =>
      rw [hx] at hkd
      exact absurd hkd (by simp [exceptIsErr])

/-- C7 witness: the public `FromStr` clause evaluated on the concrete string
`xpubAA…A/*/2` (marker followed by a further step). -/
theorem wildcard_mid_parse_witness :
    exceptIsErr (DescriptorPublicKey.fromStr noKeyParse noKeyParse
      anyXpubParse wildMidStr) = true :=
  wildcard_mid_parse_theorem.2.1 noKeyParse noKeyParse anyXpubParse
    wildMidStr wildMidStr wildMidHead Option.none [] [['2']] ['*']
    rfl rfl (by decide) (by decide) (by decide)

/-! ## C9: the parsed origin of a WIF single key is discarded -/

/-- C9: parsing a descriptor secret key string whose origin prefix parsed
successfully and whose key part is a WIF key (length at most 52, accepted by
the WIF codec) yields a `Single` key whose origin is `None` — the parsed
origin is dropped. -/
theorem wif_origin_dropped_theorem (wifP : List Char → Option Nat)
    (xprvP : List Char → Option ExtendedPrivKey) (s keyPart : List Char)
    (fp : Fingerprint) (opath : DerivationPath) (sk : Nat)
    (horig : parseXkeyOrigin s = .ok (keyPart, some (fp, opath)))
    (hlen : keyPart.length ≤ 52) (hwif : wifP keyPart = some sk) :
    DescriptorSecretKey.fromStr wifP xprvP s =
      .ok (.Single ⟨Option.none, sk⟩) := by
  unfold DescriptorSecretKey.fromStr
  rw [horig]
  dsimp only
  rw [if_pos hlen, hwif]

/-- C9 witness: the theorem evaluated on `[00000001/1]abc` with an accepting
WIF codec. -/
theorem wif_origin_dropped_witness :
    DescriptorSecretKey.fromStr wif99 noXprvParse originWifStr =
      .ok (.Single ⟨Option.none, 99⟩) :=
  wif_origin_dropped_theorem wif99 noXprvParse originWifStr "abc".data
    1 [ChildNumber.normal 1] 99 rfl (by decide) rfl

/-! ## C8: `extract` -/

/-- `applyFinalsStep` does not touch transaction inputs at other indices. -/
theorem applyFinalsStep_get_ne (ret : Transaction) (n : Nat)
    (input : PsbtInput) (i : Nat) (h : i ≠ n) :
    (applyFinalsStep ret n input).input.get? i = ret.input.get? i := by
  unfold applyFinalsStep setWitness setScriptSig
  cases input.final_script_witness <;> cases input.final_script_sig <;>
    simp [List.get?_eq_getElem?, List.getElem?_modify_ne _ _ h.symm]

/-- `applyFinalsStep` rewrites transaction input `n` by copying whichever
final fields are present. -/
theorem applyFinalsStep_get_eq (ret : Transaction) (n : Nat)
    (input : PsbtInput) (txin : TxIn) (h : ret.input.get? n = some txin) :
    (applyFinalsStep ret n input).input.get? n =
      some { txin with
             witness := input.final_script_witness.getD txin.witness,
             script_sig := input.final_script_sig.getD txin.script_sig } := by
  rw [List.get?_eq_getElem?] at h
  unfold applyFinalsStep setWitness setScriptSig
  cases input.final_script_witness <;> cases input.final_script_sig <;>
    simp [List.get?_eq_getElem?, List.getElem?_modify_eq, h, Option.getD]

/-- `applyFinalsFrom` preserves the number of transaction inputs. -/
theorem applyFinalsFrom_length (inputs : List PsbtInput) :
    ∀ (ret : Transaction) (n : Nat),
    (applyFinalsFrom ret n inputs).input.length = ret.input.length := by
  induction inputs with
  | nil => intro ret n; rfl
  | cons input rest ih =>
    intro ret n
    unfold applyFinalsFrom
    rw [ih]
    unfold applyFinalsStep setWitness setScriptSig
    cases input.final_script_witness <;> cases input.final_script_sig <;>
      simp [List.length_modify]

/-- `applyFinalsFrom` starting at `n` does not touch inputs below `n`. -/
theorem applyFinalsFrom_get_lt (inputs : List PsbtInput) :
    ∀ (ret : Transaction) (n i : Nat), i < n →
    (applyFinalsFrom ret n inputs).input.get? i = ret.input.get? i := by
  induction inputs with
  | nil => intro ret n i _; rfl
  | cons input rest ih =>
    intro ret n i hi
    unfold applyFinalsFrom
    rw [ih _ (n + 1) i (by omega)]
    exact applyFinalsStep_get_ne ret n input i (by omega)

/-- The copy of `applyFinalsFrom` at index `n + j`: the final fields of the
`j`-th processed PSBT input land in transaction input `n + j`. -/
theorem applyFinalsFrom_get_at (inputs : List PsbtInput) :
    ∀ (ret : Transaction) (n j : Nat) (txin : TxIn) (inp : PsbtInput),
    ret.input.get? (n + j) = some txin → inputs.get? j = some inp →
    (applyFinalsFrom ret n inputs).input.get? (n + j) =
      some { txin with
             witness := inp.final_script_witness.getD txin.witness,
             script_sig := inp.final_script_sig.getD txin.script_sig } := by
  induction inputs with
  | nil =>
    intro ret n j txin inp _ hj
    simp at hj
  | cons input rest ih =>
    intro ret n j txin inp htx hj
    cases j with
    | zero =>
      rw [List.get?_cons_zero] at hj
      injection hj with hj
      subst hj
      unfold applyFinalsFrom
      rw [applyFinalsFrom_get_lt rest _ (n + 1) (n + 0) (by omega)]
      rw [Nat.add_zero] at htx ⊢
      exact applyFinalsStep_get_eq ret n input txin htx
    | succ j2 =>
      rw [List.get?_cons_succ] at hj
      unfold applyFinalsFrom
      have harith : n + (j2 + 1) = (n + 1) + j2 := by omega
      rw [harith] at htx ⊢
      refine ih (applyFinalsStep ret n input) (n + 1) j2 txin inp ?_ hj
      rw [applyFinalsStep_get_ne ret n input _ (by omega)]
      exact htx

/-- When every input carries a final field, the loop is the pure copy. -/
theorem extractLoop_all_ok (inputs : List PsbtInput) :
    ∀ (ret : Transaction) (n : Nat),
    (∀ inp ∈ inputs, ¬(inp.final_script_sig = Option.none ∧
       inp.final_script_witness = Option.none)) →
    extractLoop ret n inputs = .ok (applyFinalsFrom ret n inputs) := by
  induction inputs with
  | nil => intro ret n _; rfl
  | cons input rest ih =>
    intro ret n hall
    unfold extractLoop applyFinalsFrom
    rw [if_neg (hall input (List.mem_cons_self input rest))]
    exact ih _ (n + 1) (fun inp hm => hall inp (List.mem_cons_of_mem _ hm))

/-- The loop fails naming the first input that has neither final field. -/
theorem extractLoop_error_first (inputs : List PsbtInput) :
    ∀ (ret : Transaction) (n k : Nat) (inp : PsbtInput),
    inputs.get? k = some inp →
    inp.final_script_sig = Option.none →
    inp.final_script_witness = Option.none →
    (∀ j inpj, j < k → inputs.get? j = some inpj →
      ¬(inpj.final_script_sig = Option.none ∧
        inpj.final_script_witness = Option.none)) →
    extractLoop ret n inputs = .error (.InputError .MissingWitness (n + k)) := by
  induction inputs with
  | nil =>
    intro ret n k inp hk
    simp at hk
  | cons input rest ih =>
    intro ret n k inp hk hsig hwit hfirst
    cases k with
    | zero =>
      rw [List.get?_cons_zero] at hk
      injection hk with hk
      subst hk
      unfold extractLoop
      rw [if_pos ⟨hsig, hwit⟩, Nat.add_zero]
    | succ k2 =>
      rw [List.get?_cons_succ] at hk
      have hne := hfirst 0 input (Nat.succ_pos k2) List.get?_cons_zero
      unfold extractLoop
      rw [if_neg hne]
      have harith : n + (k2 + 1) = (n + 1) + k2 := by omega
      rw [harith]
      exact ih _ (n + 1) k2 inp hk hsig hwit
        (fun j inpj hj hg => hfirst (j + 1) inpj (by omega)
          (by rw [List.get?_cons_succ]; exact hg))

/-- C8: `extract` first runs `sanity_check` (propagating its error); then
fails with `MissingWitness` naming the first input that has neither final
script-sig nor final witness; otherwise, once the external interpreter check
passes, it returns the unsigned transaction in which every input received
whichever final fields were present. -/
theorem extract_theorem (interpreterCheck : Psbt → Except PsbtError Unit)
    (psbt : Psbt) :
    (∀ e, sanity_check psbt = .error e →
      extract interpreterCheck psbt = .error e) ∧
    (∀ n inp, sanity_check psbt = .ok () →
      psbt.inputs.get? n = some inp →
      inp.final_script_sig = Option.none →
      inp.final_script_witness = Option.none →
      (∀ j inpj, j < n → psbt.inputs.get? j = some inpj →
        ¬(inpj.final_script_sig = Option.none ∧
          inpj.final_script_witness = Option.none)) →
      extract interpreterCheck psbt =
        .error (.InputError .MissingWitness n)) ∧
    (sanity_check psbt = .ok () →
      (∀ inp ∈ psbt.inputs, ¬(inp.final_script_sig = Option.none ∧
        inp.final_script_witness = Option.none)) →
      interpreterCheck psbt = .ok () →
      ∃ tx, extract interpreterCheck psbt = .ok tx ∧
        tx.input.length = psbt.unsigned_tx.input.length ∧
        ∀ i txin inp, psbt.unsigned_tx.input.get? i = some txin →
          psbt.inputs.get? i = some inp →
          tx.input.get? i =
            some { txin with
                   witness := inp.final_script_witness.getD txin.witness,
                   script_sig := inp.final_script_sig.getD txin.script_sig }) := by
  refine ⟨?_, ?_, ?_⟩
  · intro e hs
    unfold extract
    rw [hs]
  · intro n inp hs hn hsig hwit hfirst
    unfold extract
    rw [hs]
    dsimp only
    rw [extractLoop_error_first psbt.inputs psbt.unsigned_tx 0 n inp hn hsig
      hwit hfirst]
    rw [Nat.zero_add]
  · intro hs hall hic
    unfold extract
    rw [hs]
    dsimp only
    rw [extractLoop_all_ok psbt.inputs psbt.unsigned_tx 0 hall]
    dsimp only
    rw [hic]
    refine ⟨applyFinalsFrom psbt.unsigned_tx 0 psbt.inputs, rfl,
      applyFinalsFrom_length psbt.inputs psbt.unsigned_tx 0, ?_⟩
    intro i txin inp htx hin
    have := applyFinalsFrom_get_at psbt.inputs psbt.unsigned_tx 0 i txin inp
      (by rw [Nat.zero_add]; exact htx) hin
    rw [Nat.zero_add] at this
    exact this

/-- C8 witness: the missing-final clause evaluated on the concrete one-input
PSBT with no finals. -/
theorem extract_witness :
    extract icOk psbtMissing = .error (.InputError .MissingWitness 0) :=
  (extract_theorem icOk psbtMissing).2.1 0 {} rfl rfl rfl rfl
    (fun j _ hj _ => absurd hj (Nat.not_lt_zero j))

/-! ## C5: `sighash_msg` flag defaulting and regime tagging -/

/-- An `Except` mapped through `TapSighash` only ever succeeds with a
`TapSighash` value. -/
theorem map_tap_ok {x : Except SighashError Nat} {m : PsbtSighashMsg}
    (h : Except.map PsbtSighashMsg.TapSighash x = .ok m) :
    ∃ d, m = .TapSighash d := by
  cases x with
  | error e => simp [Except.map] at h
  | ok d =>
    refine ⟨d, ?_⟩
    simp [Except.map] at h
    exact h.symm

/-- An `Except` mapped through `EcdsaSighash` only ever succeeds with an
`EcdsaSighash` value. -/
theorem map_ecdsa_ok {x : Except SighashError Nat} {m : PsbtSighashMsg}
    (h : Except.map PsbtSighashMsg.EcdsaSighash x = .ok m) :
    ∃ d, m = .EcdsaSighash d := by
  cases x with
  | error e => simp [Except.map] at h
  | ok d =>
    refine ⟨d, ?_⟩
    simp [Except.map] at h
    exact h.symm

/-- The taproot arm only produces `TapSighash` values. -/
theorem sighashMsgTap_shape (cache : SighashCacheOps) (pv : List TxOut)
    (idx : Nat) (tapleafHash : Option Nat) (hashTy : SchnorrSighashType)
    (m : PsbtSighashMsg)
    (h : sighashMsgTap cache pv idx tapleafHash hashTy = .ok m) :
    ∃ d, m = .TapSighash d := by
  unfold sighashMsgTap at h
  cases tapleafHash with
  | some lh => exact map_tap_ok h
  | none => exact map_tap_ok h

/-- The non-taproot arm only produces `EcdsaSighash` values. -/
theorem sighashMsgNonTap_shape (cache : SighashCacheOps) (psbt : Psbt)
    (idx : Nat) (inp : PsbtInput) (inpSpk : Script)
    (hashTy : EcdsaSighashType) (m : PsbtSighashMsg)
    (h : sighashMsgNonTap cache psbt idx inp inpSpk hashTy = .ok m) :
    ∃ d, m = .EcdsaSighash d := by
  unfold sighashMsgNonTap at h
  split at h
  · exact absurd h (by simp)
  · dsimp only at h
    split at h
    · exact map_ecdsa_ok h
    · split at h
      · exact absurd h (by simp)
      · exact map_ecdsa_ok h

/-- C5: when the input declares no sighash type, `sighash_msg` on a v1
taproot spent output runs the taproot arm with the `Default` taproot flag
(whose successes are all tagged `TapSighash`), and on any other spent output
runs the non-taproot arm with the `ALL` flag (whose successes are all tagged
`EcdsaSighash`). -/
theorem sighash_msg_theorem (cache : SighashCacheOps) (psbt : Psbt)
    (idx : Nat) (tapleafHash : Option Nat) (inp : PsbtInput)
    (pv : List TxOut) (spk : Script)
    (hinp : psbt.inputs.get? idx = some inp)
    (hpv : prevouts psbt = some pv)
    (hspk : get_scriptpubkey psbt idx = some spk)
    (hnone : inp.sighash_type = Option.none) :
    (spk.is_v1_p2tr = true →
      (sighash_msg cache psbt idx tapleafHash =
        sighashMsgTap cache pv idx tapleafHash SchnorrSighashType.default ∧
       ∀ m, sighash_msg cache psbt idx tapleafHash = .ok m →
         ∃ d, m = .TapSighash d)) ∧
    (spk.is_v1_p2tr = false →
      (sighash_msg cache psbt idx tapleafHash =
        sighashMsgNonTap cache psbt idx inp spk EcdsaSighashType.all ∧
       ∀ m, sighash_msg cache psbt idx tapleafHash = .ok m →
         ∃ d, m = .EcdsaSighash d)) := by
  have hlen : ¬ psbt.inputs.length ≤ idx := by
    obtain ⟨hlt, -⟩ := List.get?_eq_some.mp hinp
    omega
  have hbase : sighash_msg cache psbt idx tapleafHash =
      (if spk.is_v1_p2tr then
        sighashMsgTap cache pv idx tapleafHash SchnorrSighashType.default
      else
        sighashMsgNonTap cache psbt idx inp spk EcdsaSighashType.all) := by
    unfold sighash_msg
    rw [if_neg hlen, hinp, hpv, hspk]
    dsimp only
    rw [hnone]
  constructor
  · intro htr
    rw [hbase, if_pos (by simp [htr])]
    refine ⟨rfl, ?_⟩
    intro m hm
    exact sighashMsgTap_shape cache pv idx tapleafHash
      SchnorrSighashType.default m hm
  · intro htr
    rw [hbase, if_neg (by simp [htr])]
    refine ⟨rfl, ?_⟩
    intro m hm
    exact sighashMsgNonTap_shape cache psbt idx inp spk
      EcdsaSighashType.all m hm

/-- C5 witness: the taproot clause evaluated on the concrete PSBT spending a
v1 taproot output with no declared sighash type. -/
theorem sighash_msg_witness :
    sighash_msg cache42 psbtTr 0 Option.none =
      sighashMsgTap cache42 [utxoTr] 0 Option.none
        SchnorrSighashType.default :=
  ((sighash_msg_theorem cache42 psbtTr 0 Option.none
      { witness_utxo := some utxoTr } [utxoTr] p2trScript
      rfl (by decide) rfl rfl).1 (by decide)).1

/-! ## C1: the binder on a scriptPubkey mismatch -/

/-- The taproot arm reports a mismatch only through the early return that
leaves the input untouched. -/
theorem helperTr_false (E : Ext) (input : PsbtInput) (ik : DPK)
    (leaves : List (List (PkPkh DPK DPK))) (cs : Option Script)
    (d : Descriptor Nat Nat) (i : PsbtInput)
    (h : helperTr E input ik leaves cs = .ok (d, false, i)) : i = input := by
  unfold helperTr at h
  cases hik : derive_public_key E ik with
  | error e =>
    rw [hik] at h
    exact absurd h (by simp)
  | ok ikd =>
    rw [hik] at h
    cases htl : translateTrLeaves E leaves [] with
    | error e =>
      rw [htl] at h
      exact absurd h (by simp)
    | ok p =>
      rw [htl] at h
      obtain ⟨dleaves, lookup⟩ := p
      dsimp only at h
      by_cases hchk :
          checkMismatch cs (E.scriptPubkeyFn (.tr ikd dleaves)) = true
      · rw [if_pos hchk] at h
        simp only [Except.ok.injEq, Prod.mk.injEq] at h
        exact h.2.2.symm
      · rw [if_neg hchk] at h
        simp only [Except.ok.injEq, Prod.mk.injEq] at h
        exact absurd h.2.1 (by decide)

/-- The non-taproot arm reports a mismatch only through the early return
that leaves the input untouched. -/
theorem helperNonTr_false (E : Ext) (input : PsbtInput)
    (d0 : Descriptor DPK DPK) (cs : Option Script) (dd : Descriptor Nat Nat)
    (i : PsbtInput) (h : helperNonTr E input d0 cs = .ok (dd, false, i)) :
    i = input := by
  unfold helperNonTr at h
  cases ht : translateNonTr E d0 with
  | error e =>
    rw [ht] at h
    exact absurd h (by simp)
  | ok p =>
    rw [ht] at h
    obtain ⟨derived, bip32⟩ := p
    dsimp only at h
    by_cases hchk : checkMismatch cs (E.scriptPubkeyFn derived) = true
    · rw [if_pos hchk] at h
      simp only [Except.ok.injEq, Prod.mk.injEq] at h
      exact h.2.2.symm
    · rw [if_neg hchk] at h
      simp only [Except.ok.injEq, Prod.mk.injEq] at h
      exact absurd h.2.1 (by decide)

/-- C1 counterexample: binding the bare descriptor over key 3 against a
non-matching expected scriptPubkey reports the mismatch but performs NO
field population (the input comes back unchanged, its `bip32_derivation`
still empty), while the matching case does populate — so population does not
"occur exactly as in the matching case". -/
theorem helper_mismatch_counterexample :
    helperBI (update_input_with_descriptor_helper extId {} descBare3
      (some [2])) = some (false, {}) ∧
    helperBI (update_input_with_descriptor_helper extId {} descBare3
      (some [1])) = some (true, inputB1) ∧
    inputB1.bip32_derivation ≠ ({} : PsbtInput).bip32_derivation := by
  refine ⟨rfl, rfl, by decide⟩

/-- C1 (amended): when the expected scriptPubkey differs from the derived
descriptor's own scriptPubkey, the binder returns the mismatch indication
without error and WITHOUT performing any field population (the input is
returned exactly as it was), and the checked wrapper
`update_input_with_descriptor` promotes that indication into the hard error
`MismatchedScriptPubkey`. -/
theorem helper_mismatch_theorem :
    (∀ (E : Ext) (input : PsbtInput) (desc : Descriptor DPK DPK)
       (cs : Script) (d : Descriptor Nat Nat) (b : Bool) (i : PsbtInput),
      update_input_with_descriptor_helper E input desc (some cs) =
        .ok (d, b, i) →
      b = false → i = input) ∧
    (∀ (E : Ext) (txidFn : Transaction → Nat) (psbt : Psbt) (idx : Nat)
       (input : PsbtInput) (txin : TxIn) (desc : Descriptor DPK DPK)
       (cs : Script) (d : Descriptor Nat Nat) (i : PsbtInput),
      psbt.inputs.get? idx = some input →
      psbt.unsigned_tx.input.get? idx = some txin →
      (∀ nw, input.non_witness_utxo = some nw →
        txin.previous_output.txid = txidFn nw) →
      computeExpectedSpk desc input txin = .ok cs →
      update_input_with_descriptor_helper E input desc (some cs) =
        .ok (d, false, i) →
      update_input_with_descriptor E txidFn psbt idx desc =
        .error .MismatchedScriptPubkey) := by
  constructor
  · intro E input desc cs d b i h hb
    subst hb
    cases desc with
    | tr ik leaves => exact helperTr_false E input ik leaves (some cs) d i h
    | bare ks => exact helperNonTr_false E input (.bare ks) (some cs) d i h
    | pkh k => exact helperNonTr_false E input (.pkh k) (some cs) d i h
    | wpkh k => exact helperNonTr_false E input (.wpkh k) (some cs) d i h
    | shWsh ks => exact helperNonTr_false E input (.shWsh ks) (some cs) d i h
    | shWpkh k => exact helperNonTr_false E input (.shWpkh k) (some cs) d i h
    | shSortedMulti ks =>
      exact helperNonTr_false E input (.shSortedMulti ks) (some cs) d i h
    | shMs ks => exact helperNonTr_false E input (.shMs ks) (some cs) d i h
    | wsh ks => exact helperNonTr_false E input (.wsh ks) (some cs) d i h
  · intro E txidFn psbt idx input txin desc cs d i hin htx hnw hspk hhelp
    unfold update_input_with_descriptor
    rw [hin, htx]
    dsimp only
    cases hnwv : input.non_witness_utxo with
    | none =>
      dsimp only
      rw [if_neg (by decide), hspk]
      dsimp only
      rw [hhelp]
      rfl
    | some nw =>
      dsimp only
      have hd : decide (txin.previous_output.txid = txidFn nw) = true := by
        simpa using hnw nw hnwv
      rw [hd, if_neg (by decide), hspk]
      dsimp only
      rw [hhelp]
      rfl

/-- C1 witness: the wrapper clause evaluated on the concrete PSBT whose
non-witness UTXO pays `[2]` while the descriptor derives scriptPubkey `[1]`. -/
theorem helper_mismatch_witness :
    update_input_with_descriptor extId txid77 psbtNW 0 descBare3 =
      .error .MismatchedScriptPubkey :=
  helper_mismatch_theorem.2 extId txid77 psbtNW 0 inputNW txinPrev descBare3
    [2] (.bare [.plainPubkey 3]) inputNW rfl rfl
    (fun nw h => by injection h with h2; subst h2; rfl) rfl rfl

/-! ## C3: what the binder overwrites and what it preserves -/

/-- `alInsert` preserves the presence of every key already in the map. -/
theorem alGet_alInsert_isSome [DecidableEq α] (m : List (α × β)) (k q : α)
    (v : β) (h : (alGet m q).isSome = true) :
    (alGet (alInsert m k v) q).isSome = true := by
  induction m with
  | nil => simp [alGet] at h
  | cons p rest ih =>
    obtain ⟨k0, v0⟩ := p
    by_cases h0 : k0 = k
    · simp only [alInsert, if_pos h0]
      by_cases hq : k0 = q
      · simp [alGet, hq]
      · simp only [alGet, if_neg hq] at h ⊢
        exact h
    · simp only [alInsert, if_neg h0]
      by_cases hq : k0 = q
      · simp [alGet, hq]
      · simp only [alGet, if_neg hq] at h ⊢
        exact ih h

/-- `alEntry` preserves the presence of every key already in the map. -/
theorem alGet_alEntry_isSome [DecidableEq α] (m : List (α × β)) (k q : α)
    (f : β → β) (d : β) (h : (alGet m q).isSome = true) :
    (alGet (alEntry m k f d) q).isSome = true := by
  induction m with
  | nil => simp [alGet] at h
  | cons p rest ih =>
    obtain ⟨k0, v0⟩ := p
    by_cases h0 : k0 = k
    · simp only [alEntry, if_pos h0]
      by_cases hq : k0 = q
      · simp [alGet, hq]
      · simp only [alGet, if_neg hq] at h ⊢
        exact h
    · simp only [alEntry, if_neg h0]
      by_cases hq : k0 = q
      · simp [alGet, hq]
      · simp only [alGet, if_neg hq] at h ⊢
        exact ih h

/-- The inner key loop of the taproot binder touches only
`tap_key_origins`, and every key present there beforehand stays present. -/
theorem trKeyLoop_frame (E : Ext) (lookup : List (Nat × Nat)) (tlh : Nat)
    (l : List (PkPkh Nat Nat × PkPkh DPK DPK)) :
    ∀ input : PsbtInput,
    ({ trKeyLoop E lookup tlh input l with tap_key_origins := [] } =
      { input with tap_key_origins := [] }) ∧
    (∀ k, (alGet input.tap_key_origins k).isSome = true →
      (alGet (trKeyLoop E lookup tlh input l).tap_key_origins k).isSome =
        true) := by
  induction l with
  | nil => exact fun input => ⟨rfl, fun _ h => h⟩
  | cons p rest ih =>
    intro input
    obtain ⟨pd, po⟩ := p
    cases pd with
    | plainPubkey pk =>
      cases po with
      | plainPubkey xpk =>
        refine ⟨(ih _).1.trans rfl, fun k h => (ih _).2 k ?_⟩
        exact alGet_alEntry_isSome input.tap_key_origins _ k _ _ h
      | hashedPubkey xpk => exact ih input
    | hashedPubkey hsh =>
      cases po with
      | plainPubkey xpk => exact ih input
      | hashedPubkey xpk =>
        refine ⟨(ih _).1.trans rfl, fun k h => (ih _).2 k ?_⟩
        exact alGet_alEntry_isSome input.tap_key_origins _ k _ _ h

/-- The leaf loop of the taproot binder touches only `tap_scripts` and
`tap_key_origins`, and keys present in either map beforehand stay present. -/
theorem trLeafLoop_frame (E : Ext) (ikd : Nat)
    (allLeaves : List (List (PkPkh Nat Nat))) (lookup : List (Nat × Nat))
    (l : List (List (PkPkh Nat Nat) × List (PkPkh DPK DPK))) :
    ∀ input : PsbtInput,
    ({ trLeafLoop E ikd allLeaves lookup input l with
        tap_scripts := [], tap_key_origins := [] } =
      { input with tap_scripts := [], tap_key_origins := [] }) ∧
    (∀ k, (alGet input.tap_scripts k).isSome = true →
      (alGet (trLeafLoop E ikd allLeaves lookup input l).tap_scripts
        k).isSome = true) ∧
    (∀ k, (alGet input.tap_key_origins k).isSome = true →
      (alGet (trLeafLoop E ikd allLeaves lookup input l).tap_key_origins
        k).isSome = true) := by
  induction l with
  | nil => exact fun input => ⟨rfl, fun _ h => h, fun _ h => h⟩
  | cons p rest ih =>
    intro input
    obtain ⟨dleaf, oleaf⟩ := p
    set tlh := E.tapLeafHashFn (E.encodeMs dleaf) with htlh
    set cb := E.controlBlockFn ikd allLeaves (E.encodeMs dleaf) with hcb
    set ts1 := alInsert input.tap_scripts cb (E.encodeMs dleaf, LeafVer.tapScript) with hts1
    set input1 : PsbtInput := { input with tap_scripts := ts1 } with hinput1
    set input2 := trKeyLoop E lookup tlh input1 (dleaf.zip oleaf) with hinput2
    have hk := trKeyLoop_frame E lookup tlh (dleaf.zip oleaf) input1
    have hts2 : input2.tap_scripts = input1.tap_scripts := by
      have := congrArg PsbtInput.tap_scripts hk.1
      simpa using this
    refine ⟨?_, ?_, ?_⟩
    · have h3 : ({ input2 with tap_scripts := [], tap_key_origins := [] }
          : PsbtInput) =
          { input1 with tap_scripts := [], tap_key_origins := [] } :=
        congrArg (fun x => { x with tap_scripts := ([] : List (Nat × (Script × LeafVer))) }) hk.1
      exact ((ih input2).1.trans h3).trans rfl
    · intro k h
      refine (ih input2).2.1 k ?_
      rw [hts2]
      exact alGet_alInsert_isSome input.tap_scripts cb k _ h
    · intro k h
      exact (ih input2).2.2 k (hk.2 k h)

/-- Unfold an equality of inputs with the four taproot fields erased into an
equality that pins every other field. -/
theorem eq_of_erase_tap (a b : PsbtInput)
    (h : ({ a with
            tap_internal_key := Option.none,
            tap_merkle_root := Option.none, tap_scripts := [],
            tap_key_origins := [] } : PsbtInput) =
      { b with
        tap_internal_key := Option.none,
        tap_merkle_root := Option.none, tap_scripts := [],
        tap_key_origins := [] }) :
    a = { b with
          tap_internal_key := a.tap_internal_key,
          tap_merkle_root := a.tap_merkle_root,
          tap_scripts := a.tap_scripts,
          tap_key_origins := a.tap_key_origins } := by
  cases a
  cases b
  simp only [PsbtInput.mk.injEq] at h ⊢
  simp_all

/-- C3 counterexample: the binder does clear pre-existing data.  Binding the
bare descriptor wipes the pre-existing `bip32_derivation` entry at key 9
(the map is replaced wholesale), and binding the taproot descriptor replaces
the pre-existing `tap_key_origins` value of the derived internal key 7. -/
theorem binder_frame_counterexample :
    alGet inputPre.bip32_derivation 9 = some (0, []) ∧
    helperBI (update_input_with_descriptor_helper extId inputPre descBare3
      Option.none) = some (true, inputB1) ∧
    alGet inputB1.bip32_derivation 9 = Option.none ∧
    alGet inputTko.tap_key_origins 7 = some ([42], (5, [])) ∧
    helperBI (update_input_with_descriptor_helper extId inputTko descTr7
      Option.none) = some (true, inputTko2) ∧
    alGet inputTko2.tap_key_origins 7 = some ([], (0, [])) := by
  exact ⟨rfl, rfl, rfl, rfl, rfl, rfl⟩

/-- C3 (amended): the binder writes only the fields it populates.  In the
non-taproot arm every field other than `bip32_derivation` (replaced
wholesale), `witness_script` and `redeem_script` is returned unchanged.  In
the taproot arm every field other than the four taproot fields is returned
unchanged, and every key present in `tap_scripts` or `tap_key_origins`
before the call is still present afterwards (though the entry of the derived
internal key is replaced and leaf-key entries may have leaf hashes
appended). -/
theorem binder_frame_theorem :
    (∀ (E : Ext) (input : PsbtInput) (desc : Descriptor DPK DPK)
       (cso : Option Script) (d : Descriptor Nat Nat) (b : Bool)
       (i : PsbtInput),
      (∀ ik leaves, desc ≠ Descriptor.tr ik leaves) →
      update_input_with_descriptor_helper E input desc cso = .ok (d, b, i) →
      i = { input with
            bip32_derivation := i.bip32_derivation,
            witness_script := i.witness_script,
            redeem_script := i.redeem_script }) ∧
    (∀ (E : Ext) (input : PsbtInput) (ik : DPK)
       (leaves : List (List (PkPkh DPK DPK))) (cso : Option Script)
       (d : Descriptor Nat Nat) (b : Bool) (i : PsbtInput),
      update_input_with_descriptor_helper E input (.tr ik leaves) cso =
        .ok (d, b, i) →
      (i = { input with
             tap_internal_key := i.tap_internal_key,
             tap_merkle_root := i.tap_merkle_root,
             tap_scripts := i.tap_scripts,
             tap_key_origins := i.tap_key_origins }) ∧
      (∀ k, (alGet input.tap_scripts k).isSome = true →
        (alGet i.tap_scripts k).isSome = true) ∧
      (∀ k, (alGet input.tap_key_origins k).isSome = true →
        (alGet i.tap_key_origins k).isSome = true)) := by
  constructor
  · intro E input desc cso d b i hnt h
    have h2 : helperNonTr E input desc cso = .ok (d, b, i) := by
      cases desc with
      | tr ik leaves => exact absurd rfl (hnt ik leaves)
      | bare ks => exact h
      | pkh k => exact h
      | wpkh k => exact h
      | shWsh ks => exact h
      | shWpkh k => exact h
      | shSortedMulti ks => exact h
      | shMs ks => exact h
      | wsh ks => exact h
    unfold helperNonTr at h2
    cases ht : translateNonTr E desc with
    | error e =>
      rw [ht] at h2
      exact absurd h2 (by simp)
    | ok p =>
      rw [ht] at h2
      obtain ⟨derived, bip32⟩ := p
      dsimp only at h2
      by_cases hchk : checkMismatch cso (E.scriptPubkeyFn derived) = true
      · rw [if_pos hchk] at h2
        simp only [Except.ok.injEq, Prod.mk.injEq] at h2
        rw [← h2.2.2]
      · rw [if_neg hchk] at h2
        simp only [Except.ok.injEq, Prod.mk.injEq] at h2
        cases derived <;> rw [← h2.2.2]
  · intro E input ik leaves cso d b i h
    have h2 : helperTr E input ik leaves cso = .ok (d, b, i) := h
    unfold helperTr at h2
    cases hik : derive_public_key E ik with
    | error e =>
      rw [hik] at h2
      exact absurd h2 (by simp)
    | ok ikd =>
      rw [hik] at h2
      cases htl : translateTrLeaves E leaves [] with
      | error e =>
        rw [htl] at h2
        exact absurd h2 (by simp)
      | ok p =>
        rw [htl] at h2
        obtain ⟨dleaves, lookup⟩ := p
        dsimp only at h2
        by_cases hchk :
            checkMismatch cso (E.scriptPubkeyFn (.tr ikd dleaves)) = true
        · rw [if_pos hchk] at h2
          simp only [Except.ok.injEq, Prod.mk.injEq] at h2
          rw [← h2.2.2]
          refine ⟨?_, fun k hk => hk, fun k hk => hk⟩
          exact eq_of_erase_tap input input rfl
        · rw [if_neg hchk] at h2
          simp only [Except.ok.injEq, Prod.mk.injEq] at h2
          have hi := h2.2.2
          set tko1 := alInsert input.tap_key_origins (E.spendInternalKey ikd dleaves) ([], (master_fingerprint E.singleKeyFp ik, full_derivation_path ik)) with htko1
          set input1 : PsbtInput := { input with tap_internal_key := some (E.spendInternalKey ikd dleaves), tap_merkle_root := E.spendMerkleRoot ikd dleaves, tap_key_origins := tko1 } with hinput1
          have hl := trLeafLoop_frame E ikd dleaves lookup
            (dleaves.zip leaves) input1
          rw [← hi]
          refine ⟨?_, ?_, ?_⟩
          · apply eq_of_erase_tap
            have h3 := congrArg
              (fun x => { x with
                tap_internal_key := (Option.none : Option Nat),
                tap_merkle_root := (Option.none : Option Nat) }) hl.1
            exact h3.trans rfl
          · intro k hk
            exact hl.2.1 k hk
          · intro k hk
            refine hl.2.2 k ?_
            exact alGet_alInsert_isSome input.tap_key_origins _ k _ hk

/-- C3 witness: the taproot clause of the amended theorem evaluated on the
concrete input with a pre-existing `tap_key_origins` entry: the key is still
present after the call. -/
theorem binder_frame_witness :
    (alGet inputTko2.tap_key_origins 7).isSome = true :=
  ((binder_frame_theorem.2 extId inputTko
      (.Single ⟨Option.none, .FullKey 7⟩) [] Option.none
      (.tr 7 []) true inputTko2 rfl).2.2) 7 rfl

end RMS
